import Mathlib

/-!
Verification development for the content-ingestion pipeline in `ir/importer.py`.

The Python source manipulates strings (math-delimiter normalization with
`re.sub`), parsed HTML trees (BeautifulSoup), URLs (`urllib.parse`), and
drives batch imports with UI/storage collaborators.  We embed:

* texts as `List Char` / `String`;
* the lazy (`.*?`, `re.DOTALL`) find/replace patterns of
  `standardize_math_delimiters` as an explicit leftmost-shortest-match
  scanner (`findMatch` / `subAll`);
* parsed HTML documents as a typed AST (`Node`), per the documented
  duck-typed node access of BeautifulSoup;
* URL splitting/joining following `urllib.parse.urlsplit` / `urljoin`;
* the importer methods as pure functions from explicit collaborator
  oracles (HTTP server behaviour, filesystem, UI selection/prompt
  results, settings) to an event trace plus result, with Python
  exceptions modelled by `Except`.
-/

/-- Python errors that the importer code can raise and that the
    surrounding code either catches or lets escape. -/
inductive PyErr where
  | keyError
  | attributeError
  deriving DecidableEq, Repr

/-! ## Leftmost-shortest matching, modelling `re.sub(opn + "(.*?)" + cls, pre + "\\1" + post, s, flags=re.DOTALL)` -/

/-- Scan for the first occurrence of the literal closing delimiter `cls`.
    Returns the characters before it and the characters after it.  This is
    the lazy-quantifier semantics of `(.*?)` followed by a literal. -/
def findClose (cls : List Char) : List Char → Option (List Char × List Char)
  | [] => if cls.isEmpty then some ([], []) else none
  | c :: rest =>
    if cls.isPrefixOf (c :: rest) then some ([], (c :: rest).drop cls.length)
    else
      match findClose cls rest with
      | some (content, rest2) => some (c :: content, rest2)
      | none => none

/-- Find the leftmost match of the pattern `opn (.*?) cls` (DOTALL).
    Returns `(before, content, after)`: the text before the match, the
    captured group, and the text after the match. -/
def findMatch (opn cls : List Char) : List Char → Option (List Char × List Char × List Char)
  | [] => none
  | c :: rest =>
    if opn.isPrefixOf (c :: rest) then
      match findClose cls (List.drop opn.length (c :: rest)) with
      | some (content, rest2) => some ([], content, rest2)
      | none =>
        match findMatch opn cls rest with
        | some (before, content, rest2) => some (c :: before, content, rest2)
        | none => none
    else
      match findMatch opn cls rest with
      | some (before, content, rest2) => some (c :: before, content, rest2)
      | none => none

/-- Replace every (non-overlapping, left-to-right) match of
    `opn (.*?) cls` by `pre ++ content ++ post`, exactly as `re.sub`
    does: the replacement text is not rescanned.  `fuel` bounds the
    number of replacements; `applyRule` supplies enough. -/
def subAll (opn cls pre post : List Char) : Nat → List Char → List Char
  | 0, xs => xs
  | fuel + 1, xs =>
    match findMatch opn cls xs with
    | none => xs
    | some (before, content, rest2) =>
        before ++ pre ++ content ++ post ++ subAll opn cls pre post fuel rest2

/-- One `re.sub` pass of `standardize_math_delimiters`. -/
def applyRule (opn cls pre post : List Char) (xs : List Char) : List Char :=
  subAll opn cls pre post xs.length xs

/-! Delimiter tokens of the six patterns, in source order. -/

def ddTok : List Char := "$$".data
def dispOpen : List Char := "\\[".data
def dispClose : List Char := "\\]".data
def inlOpen : List Char := "\\(".data
def inlClose : List Char := "\\)".data
def eqOpen : List Char := "\\begin{equation}".data
def eqClose : List Char := "\\end{equation}".data
def eqsOpen : List Char := "\\begin{equation*}".data
def eqsClose : List Char := "\\end{equation*}".data
def alOpen : List Char := "\\begin{align}".data
def alClose : List Char := "\\end{align}".data
def alsOpen : List Char := "\\begin{align*}".data
def alsClose : List Char := "\\end{align*}".data

/-- `Importer.standardize_math_delimiters` over character lists.  The six
    `re.sub` rules run in the insertion order of the `patterns` dict:
    `$$...$$` first, then the four equation/align environments, and the
    single-dollar inline rule last. -/
def standardizeData (xs : List Char) : List Char :=
  let s1 := applyRule ddTok ddTok dispOpen dispClose xs
  let s2 := applyRule eqOpen eqClose (dispOpen ++ eqOpen) (eqClose ++ dispClose) s1
  let s3 := applyRule eqsOpen eqsClose (dispOpen ++ eqsOpen) (eqsClose ++ dispClose) s2
  let s4 := applyRule alOpen alClose (dispOpen ++ alOpen) (alClose ++ dispClose) s3
  let s5 := applyRule alsOpen alsClose (dispOpen ++ alsOpen) (alsClose ++ dispClose) s4
  applyRule ['$'] ['$'] inlOpen inlClose s5

/-- `Importer.standardize_math_delimiters` on strings. -/
def standardize_math_delimiters (s : String) : String :=
  ⟨standardizeData s.data⟩

example : standardize_math_delimiters "$$a$$" = "\\[a\\]" := by decide
example : standardize_math_delimiters "$x$" = "\\(x\\)" := by decide
example : standardize_math_delimiters "\\begin{equation}a\\end{equation}" =
    "\\[\\begin{equation}a\\end{equation}\\]" := by decide
example : standardize_math_delimiters "$$a$b$$c$d" = "\\[a\\(b\\]c\\)d" := by decide

/-! ## Occurrence of a literal token in a text -/

/-- `occursIn p xs` states that `p` appears as a contiguous segment of `xs`. -/
def occursIn (p xs : List Char) : Prop := ∃ u v, xs = u ++ p ++ v

/-- Boolean companion of `occursIn`. -/
def containsTok (p : List Char) : List Char → Bool
  | [] => p.isEmpty
  | c :: rest => p.isPrefixOf (c :: rest) || containsTok p rest

theorem occursIn_of_prefix {p xs : List Char} (h : ∃ t, xs = p ++ t) : occursIn p xs := by
  obtain ⟨t, ht⟩ := h
  exact ⟨[], t, by simp [ht]⟩

theorem occursIn_cons {p : List Char} {c : Char} {rest : List Char}
    (h : occursIn p rest) : occursIn p (c :: rest) := by
  obtain ⟨u, v, hv⟩ := h
  exact ⟨c :: u, v, by simp [hv]⟩

theorem containsTok_iff (p xs : List Char) : containsTok p xs = true ↔ occursIn p xs := by
  induction xs with
  | nil =>
    simp only [containsTok, List.isEmpty_iff]
    constructor
    · rintro rfl; exact ⟨[], [], rfl⟩
    · rintro ⟨u, v, h⟩
      exact (List.append_eq_nil.mp (List.append_eq_nil.mp h.symm).1).2
  | cons c rest ih =>
    simp only [containsTok, Bool.or_eq_true, List.isPrefixOf_iff_prefix, ih]
    constructor
    · rintro (⟨t, ht⟩ | h)
      · exact occursIn_of_prefix ⟨t, ht.symm⟩
      · exact occursIn_cons h
    · rintro ⟨u, v, hv⟩
      cases u with
      | nil => exact Or.inl ⟨v, by simpa using hv.symm⟩
      | cons a u' =>
        right
        refine ⟨u', v, ?_⟩
        have h2 := (by simpa using hv : c = a ∧ rest = u' ++ (p ++ v))
        simpa using h2.2

theorem occursIn_append_left {p u xs : List Char} (h : occursIn p xs) :
    occursIn p (u ++ xs) := by
  obtain ⟨a, b, hb⟩ := h
  exact ⟨u ++ a, b, by simp [hb]⟩

theorem occursIn_append_right {p xs : List Char} (w : List Char) (h : occursIn p xs) :
    occursIn p (xs ++ w) := by
  obtain ⟨a, b, hb⟩ := h
  exact ⟨a, b ++ w, by simp [hb]⟩

theorem mem_of_occursIn {p xs : List Char} {a : Char} (hp : a ∈ p) (h : occursIn p xs) :
    a ∈ xs := by
  obtain ⟨u, v, hv⟩ := h
  subst hv; simp [hp]

/-- Decomposition of an occurrence in a concatenation: the token lies in the
    left part, in the right part, or straddles the seam. -/
theorem occursIn_append_cases {p u v : List Char} (h : occursIn p (u ++ v)) :
    occursIn p u ∨ occursIn p v ∨
      ∃ p1 p2 u', p = p1 ++ p2 ∧ p1 ≠ [] ∧ p2 ≠ [] ∧ u = u' ++ p1 ∧ (∃ v', v = p2 ++ v') := by
  obtain ⟨a, b, hb⟩ := h
  have hb' : u ++ v = a ++ (p ++ b) := by rw [hb, List.append_assoc]
  rcases List.append_eq_append_iff.mp hb' with ⟨a', ha1, ha2⟩ | ⟨c', hc1, hc2⟩
  · -- a = u ++ a' and v = a' ++ (p ++ b) : occurrence inside v
    right; left
    exact ⟨a', b, by rw [ha2, List.append_assoc]⟩
  · -- u = a ++ c' and p ++ b = c' ++ v
    rcases List.append_eq_append_iff.mp hc2 with ⟨k, hk1, hk2⟩ | ⟨k, hk1, hk2⟩
    · -- c' = p ++ k and b = k ++ v : occurrence inside u
      left
      exact ⟨a, k, by rw [hc1, hk1, List.append_assoc]⟩
    · -- p = c' ++ k and v = k ++ b
      by_cases hck : c' = []
      · right; left
        refine ⟨[], b, ?_⟩
        rw [hk2, hk1, hck]
        simp
      · by_cases hkk : k = []
        · left
          refine ⟨a, [], ?_⟩
          rw [hc1, hk1, hkk]
          simp
        · right; right
          exact ⟨c', k, a, hk1, hck, hkk, hc1, ⟨b, hk2⟩⟩

/-! ## Structure of `findClose` / `findMatch` results -/

theorem findClose_spec {cls : List Char} :
    ∀ {ys content rest2 : List Char},
      findClose cls ys = some (content, rest2) → ys = content ++ cls ++ rest2 := by
  intro ys
  induction ys with
  | nil =>
    intro content rest2 h
    simp only [findClose] at h
    split at h
    · rename_i hc
      cases h
      simp [List.isEmpty_iff.mp hc]
    · cases h
  | cons c rest ih =>
    intro content rest2 h
    simp only [findClose] at h
    split at h
    · rename_i hpre
      cases h
      obtain ⟨t, ht⟩ := List.isPrefixOf_iff_prefix.mp hpre
      rw [← ht]
      simp [List.drop_left]
    · rename_i hpre
      cases hfc : findClose cls rest with
      | some pr =>
        obtain ⟨ct, r2⟩ := pr
        rw [hfc] at h
        simp only [] at h
        cases h
        have h2 := ih hfc
        simp [h2]
      | none =>
        rw [hfc] at h
        simp at h

theorem findMatch_spec {opn cls : List Char} :
    ∀ {xs b c r : List Char},
      findMatch opn cls xs = some (b, c, r) → xs = b ++ opn ++ c ++ cls ++ r := by
  intro xs
  induction xs with
  | nil => intro b c r h; cases h
  | cons x rest ih =>
    intro b c r h
    simp only [findMatch] at h
    split at h
    · rename_i hpre
      cases hfc : findClose cls (List.drop opn.length (x :: rest)) with
      | some pr =>
        obtain ⟨ct, r2⟩ := pr
        rw [hfc] at h
        simp only [] at h
        cases h
        obtain ⟨t, ht⟩ := List.isPrefixOf_iff_prefix.mp hpre
        have hdrop : List.drop opn.length (x :: rest) = t := by
          rw [← ht]; exact List.drop_left _ _
        have h2 := findClose_spec (show findClose cls t = some (c, r) from hdrop ▸ hfc)
        rw [← ht, h2]
        simp
      | none =>
        rw [hfc] at h
        simp only [] at h
        cases hfm : findMatch opn cls rest with
        | some pr =>
          obtain ⟨b', c', r'⟩ := pr
          rw [hfm] at h
          simp only [] at h
          cases h
          have h2 := ih hfm
          simp [h2]
        | none =>
          rw [hfm] at h
          simp at h
    · cases hfm : findMatch opn cls rest with
      | some pr =>
        obtain ⟨b', c', r'⟩ := pr
        rw [hfm] at h
        simp only [] at h
        cases h
        have h2 := ih hfm
        simp [h2]
      | none =>
        rw [hfm] at h
        simp at h

theorem occursIn_of_findMatch {opn cls xs b c r : List Char}
    (h : findMatch opn cls xs = some (b, c, r)) : occursIn opn xs :=
  ⟨b, c ++ cls ++ r, by simp [findMatch_spec h]⟩

theorem findMatch_eq_none {opn cls xs : List Char} (h : ¬ occursIn opn xs) :
    findMatch opn cls xs = none := by
  cases hm : findMatch opn cls xs with
  | none => rfl
  | some pr =>
    obtain ⟨b, c, r⟩ := pr
    exact absurd (occursIn_of_findMatch hm) h

theorem subAll_id {opn cls pre post : List Char} {xs : List Char}
    (h : ¬ occursIn opn xs) (f : Nat) : subAll opn cls pre post f xs = xs := by
  cases f with
  | zero => rfl
  | succ g => simp [subAll, findMatch_eq_none h]

/-! ## The single-character token `[d]`: first-occurrence facts -/

theorem findClose_single_none {d : Char} :
    ∀ {ys : List Char}, findClose [d] ys = none → d ∉ ys := by
  intro ys
  induction ys with
  | nil => intro _ h; simp at h
  | cons y rest ih =>
    intro h
    simp only [findClose] at h
    split at h
    · cases h
    · rename_i hpre
      have hy : y ≠ d := by
        intro he
        apply hpre
        simp [List.isPrefixOf, he, List.isPrefixOf_iff_prefix]
      cases hfc : findClose [d] rest with
      | some pr => rw [hfc] at h; obtain ⟨a, b⟩ := pr; simp at h
      | none =>
        have := ih hfc
        simp only [List.mem_cons]
        rintro (rfl | hm)
        · exact hy rfl
        · exact this hm

theorem findClose_single_content {d : Char} :
    ∀ {ys content rest2 : List Char},
      findClose [d] ys = some (content, rest2) → d ∉ content := by
  intro ys
  induction ys with
  | nil =>
    intro content rest2 h
    simp [findClose] at h
  | cons y rest ih =>
    intro content rest2 h
    simp only [findClose] at h
    split at h
    · cases h; simp
    · rename_i hpre
      have hy : y ≠ d := by
        intro he
        apply hpre
        simp [List.isPrefixOf, he, List.isPrefixOf_iff_prefix]
      cases hfc : findClose [d] rest with
      | some pr =>
        obtain ⟨ct, r2⟩ := pr
        rw [hfc] at h
        simp only [] at h
        cases h
        simp only [List.mem_cons]
        rintro (rfl | hm)
        · exact hy rfl
        · exact ih hfc hm
      | none => rw [hfc] at h; simp at h

theorem findMatch_single_parts {d : Char} :
    ∀ {xs b c r : List Char},
      findMatch [d] [d] xs = some (b, c, r) → d ∉ b ∧ d ∉ c := by
  intro xs
  induction xs with
  | nil => intro b c r h; cases h
  | cons x rest ih =>
    intro b c r h
    simp only [findMatch] at h
    split at h
    · rename_i hpre
      cases hfc : findClose [d] (List.drop 1 (x :: rest)) with
      | some pr =>
        obtain ⟨ct, r2⟩ := pr
        rw [show ([d] : List Char).length = 1 from rfl] at h
        rw [hfc] at h
        simp only [] at h
        cases h
        exact ⟨by simp, findClose_single_content hfc⟩
      | none =>
        -- no closing dollar after this position: no later match exists either
        have hnone : d ∉ rest := by
          apply findClose_single_none
          simpa using hfc
        have hfm : findMatch [d] [d] rest = none := by
          apply findMatch_eq_none
          intro hocc
          exact hnone (mem_of_occursIn (by simp) hocc)
        rw [show ([d] : List Char).length = 1 from rfl] at h
        rw [hfc] at h
        simp only [] at h
        rw [hfm] at h
        cases h
    · rename_i hpre
      have hx : x ≠ d := by
        intro he
        apply hpre
        simp [List.isPrefixOf, he, List.isPrefixOf_iff_prefix]
      cases hfm : findMatch [d] [d] rest with
      | some pr =>
        obtain ⟨b', c', r'⟩ := pr
        rw [hfm] at h
        simp only [] at h
        cases h
        obtain ⟨h1, h2⟩ := ih hfm
        constructor
        · simp only [List.mem_cons]
          rintro (rfl | hm)
          · exact hx rfl
          · exact h1 hm
        · exact h2
      | none => rw [hfm] at h; cases h

theorem findMatch_single_none_count {d : Char} :
    ∀ {xs : List Char}, findMatch [d] [d] xs = none → List.count d xs ≤ 1 := by
  intro xs
  induction xs with
  | nil => intro _; simp
  | cons x rest ih =>
    intro h
    simp only [findMatch] at h
    split at h
    · rename_i hpre
      -- x = d here
      have hx : x = d := by
        obtain ⟨t, ht⟩ := List.isPrefixOf_iff_prefix.mp hpre
        cases ht
        rfl
      cases hfc : findClose [d] (List.drop 1 (x :: rest)) with
      | some pr =>
        obtain ⟨ct, r2⟩ := pr
        rw [show ([d] : List Char).length = 1 from rfl] at h
        rw [hfc] at h
        cases h
      | none =>
        have hnone : d ∉ rest := findClose_single_none (by simpa using hfc)
        rw [List.count_cons]
        have hz : List.count d rest = 0 := List.count_eq_zero.mpr hnone
        simp [hz]
        split <;> omega
    · rename_i hpre
      have hx : x ≠ d := by
        intro he
        apply hpre
        simp [List.isPrefixOf, he, List.isPrefixOf_iff_prefix]
      cases hfm : findMatch [d] [d] rest with
      | some pr =>
        obtain ⟨b', c', r'⟩ := pr
        rw [hfm] at h
        cases h
      | none =>
        have hle := ih hfm
        rw [List.count_cons]
        simp [hx]
        exact hle

theorem findMatch_single_of_count {d : Char} {xs : List Char}
    (h : List.count d xs ≤ 1) : findMatch [d] [d] xs = none := by
  cases hm : findMatch [d] [d] xs with
  | none => rfl
  | some pr =>
    obtain ⟨b, c, r⟩ := pr
    have hs := findMatch_spec hm
    rw [hs] at h
    simp [List.count_append, List.count_cons] at h
    omega

/-- The inline rule `$...$` leaves at most one dollar sign in its output,
    provided the replacement wrappers are dollar-free. -/
theorem count_subAll_single {d : Char} {io ic : List Char}
    (hio : d ∉ io) (hic : d ∉ ic) :
    ∀ f xs, xs.length ≤ f → List.count d (subAll [d] [d] io ic f xs) ≤ 1 := by
  intro f
  induction f with
  | zero =>
    intro xs hlen
    have : xs = [] := List.eq_nil_of_length_eq_zero (Nat.le_zero.mp hlen)
    subst this
    simp [subAll]
  | succ g ih =>
    intro xs hlen
    simp only [subAll]
    cases hm : findMatch [d] [d] xs with
    | none => exact findMatch_single_none_count hm
    | some pr =>
      obtain ⟨b, c, r⟩ := pr
      obtain ⟨hb, hc⟩ := findMatch_single_parts hm
      have hs := findMatch_spec hm
      have hlr : r.length ≤ g := by
        have := congrArg List.length hs
        simp at this
        omega
      have hrec := ih r hlr
      simp [List.count_append, List.count_eq_zero.mpr hb, List.count_eq_zero.mpr hc,
        List.count_eq_zero.mpr hio, List.count_eq_zero.mpr hic]
      exact hrec

/-! ## Reflection of token occurrences through a substitution pass

The replacement wrappers of the importer rules are two-character strings
`backslash-bracket`.  A token that contains none of the bracket characters
and does not end in a backslash cannot be created by a substitution pass:
if it occurs in the output it already occurred in the input. -/

theorem straddle_left_kill {p p1 p2 : List Char} {bx : Char} {Z v' : List Char}
    (hp : p = p1 ++ p2) (hp2 : p2 ≠ [])
    (heq : '\\' :: bx :: Z = p2 ++ v')
    (hbx : bx ∉ p) (hlast : p.getLast? ≠ some '\\') : False := by
  cases p2 with
  | nil => exact hp2 rfl
  | cons y t =>
    simp only [List.cons_append] at heq
    obtain ⟨hy, hrest⟩ := List.cons.inj heq
    cases t with
    | nil =>
      apply hlast
      rw [hp, ← hy]
      exact List.getLast?_concat _
    | cons y2 t' =>
      simp only [List.cons_append] at hrest
      obtain ⟨hy2, _⟩ := List.cons.inj hrest
      apply hbx
      rw [hp, hy2]
      simp

theorem straddle_right_kill {p p1 p2 : List Char} {bx : Char} {u' : List Char}
    (hpre : ('\\' : Char) :: [bx] = u' ++ p1)
    (hp1 : p1 ≠ []) (hp : p = p1 ++ p2) (hbx : bx ∉ p) : False := by
  cases u' with
  | nil =>
    simp only [List.nil_append] at hpre
    apply hbx
    rw [hp, ← hpre]
    simp
  | cons a u'' =>
    simp only [List.cons_append] at hpre
    obtain ⟨_, hrest⟩ := List.cons.inj hpre
    cases u'' with
    | nil =>
      simp only [List.nil_append] at hrest
      apply hbx
      rw [hp, ← hrest]
      simp
    | cons a2 u''' =>
      simp only [List.cons_append] at hrest
      obtain ⟨_, hnil⟩ := List.cons.inj hrest
      exact hp1 (List.append_eq_nil.mp hnil.symm).2

theorem inside_two_kill {p : List Char} {bx : Char} (hlen : 2 ≤ p.length) (hbx : bx ∉ p)
    (h : occursIn p ['\\', bx]) : False := by
  obtain ⟨u, v, hv⟩ := h
  have hl := congrArg List.length hv
  simp at hl
  have hu : u = [] := List.eq_nil_of_length_eq_zero (by omega)
  have hvv : v = [] := List.eq_nil_of_length_eq_zero (by omega)
  subst hu; subst hvv
  simp at hv
  apply hbx
  rw [← hv]
  simp

theorem occursIn_mid {p c : List Char} (w z : List Char) (h : occursIn p c) :
    occursIn p (w ++ c ++ z) :=
  occursIn_append_right z (occursIn_append_left h)

/-- Occurrence reflection: a pass of a rule whose replacement wrappers are
    `backslash + bracket` two-character strings cannot create a new
    occurrence of a token `p` that avoids both bracket characters and does
    not end in a backslash. -/
theorem occursIn_subAll {opn cls : List Char} {b1 b2 : Char} {p : List Char}
    (hlen : 2 ≤ p.length) (hb1 : b1 ∉ p) (hb2 : b2 ∉ p)
    (hlast : p.getLast? ≠ some '\\') :
    ∀ f xs, occursIn p (subAll opn cls ['\\', b1] ['\\', b2] f xs) → occursIn p xs := by
  intro f
  induction f with
  | zero => intro xs h; exact h
  | succ g ih =>
    intro xs h
    simp only [subAll] at h
    cases hm : findMatch opn cls xs with
    | none => rw [hm] at h; exact h
    | some pr =>
      obtain ⟨b, c, r⟩ := pr
      rw [hm] at h
      have hs := findMatch_spec hm
      have h' : occursIn p
          (b ++ (['\\', b1] ++ (c ++ (['\\', b2] ++ subAll opn cls ['\\', b1] ['\\', b2] g r)))) := by
        simpa [List.append_assoc] using h
      rcases occursIn_append_cases h' with h1 | h2 | ⟨p1, p2, u', hp, hp1, hp2, hu, ⟨v', hv⟩⟩
      · rw [hs]
        have h9 := occursIn_append_right (opn ++ (c ++ (cls ++ r))) h1
        simpa [List.append_assoc] using h9
      · rcases occursIn_append_cases h2 with h3 | h4 | ⟨p1, p2, u', hp, hp1, hp2, hu, ⟨v', hv⟩⟩
        · exact (inside_two_kill hlen hb1 h3).elim
        · rcases occursIn_append_cases h4 with h5 | h6 | ⟨p1, p2, u', hp, hp1, hp2, hu, ⟨v', hv⟩⟩
          · rw [hs]
            have h9 := occursIn_mid (b ++ opn) (cls ++ r) h5
            simpa [List.append_assoc] using h9
          · rcases occursIn_append_cases h6 with h7 | h8 | ⟨p1, p2, u', hp, hp1, hp2, hu, ⟨v', hv⟩⟩
            · exact (inside_two_kill hlen hb2 h7).elim
            · have h9 := ih r h8
              rw [hs]
              exact occursIn_append_left h9
            · exact (straddle_right_kill hu hp1 hp hb2).elim
          · exact (straddle_left_kill hp hp2 hv hb2 hlast).elim
        · exact (straddle_right_kill hu hp1 hp hb1).elim
      · exact (straddle_left_kill hp hp2 hv hb1 hlast).elim

theorem subAll_id_of_none {opn cls pre post : List Char} {xs : List Char}
    (h : findMatch opn cls xs = none) (f : Nat) : subAll opn cls pre post f xs = xs := by
  cases f with
  | zero => rfl
  | succ g => simp [subAll, h]

theorem applyRule_id {opn cls pre post xs : List Char} (h : ¬ occursIn opn xs) :
    applyRule opn cls pre post xs = xs :=
  subAll_id h _

theorem count_two_of_occursIn {d : Char} {xs : List Char} (h : occursIn [d, d] xs) :
    2 ≤ List.count d xs := by
  obtain ⟨u, v, hv⟩ := h
  rw [hv]
  simp [List.count_append, List.count_cons]
  omega

/-- No equation/align environment marker occurs in the text. -/
def envFree (xs : List Char) : Prop :=
  ¬ occursIn eqOpen xs ∧ ¬ occursIn eqsOpen xs ∧ ¬ occursIn alOpen xs ∧ ¬ occursIn alsOpen xs

theorem dispOpen_eq : dispOpen = ['\\', '['] := by decide
theorem dispClose_eq : dispClose = ['\\', ']'] := by decide
theorem inlOpen_eq : inlOpen = ['\\', '('] := by decide
theorem inlClose_eq : inlClose = ['\\', ')'] := by decide

/-- A pass of the display rule cannot create an environment marker. -/
theorem envFree_rule_dd {xs : List Char} (h : envFree xs) :
    envFree (applyRule ddTok ddTok dispOpen dispClose xs) := by
  obtain ⟨h1, h2, h3, h4⟩ := h
  rw [applyRule, dispOpen_eq, dispClose_eq]
  refine ⟨?_, ?_, ?_, ?_⟩ <;>
    exact fun ho =>
      absurd (occursIn_subAll (by decide) (by decide) (by decide) (by decide) _ _ ho)
        (by assumption)

/-- A pass of the inline rule cannot create an environment marker. -/
theorem envFree_rule_inl {xs : List Char} (h : envFree xs) :
    envFree (applyRule ['$'] ['$'] inlOpen inlClose xs) := by
  obtain ⟨h1, h2, h3, h4⟩ := h
  rw [applyRule, inlOpen_eq, inlClose_eq]
  refine ⟨?_, ?_, ?_, ?_⟩ <;>
    exact fun ho =>
      absurd (occursIn_subAll (by decide) (by decide) (by decide) (by decide) _ _ ho)
        (by assumption)

/-- On environment-free input, the four environment rules are identities,
    so `standardize_math_delimiters` reduces to the display rule followed
    by the inline rule. -/
theorem standardizeData_envFree {xs : List Char} (h : envFree xs) :
    standardizeData xs =
      applyRule ['$'] ['$'] inlOpen inlClose (applyRule ddTok ddTok dispOpen dispClose xs) := by
  have h1 := envFree_rule_dd h
  simp only [standardizeData]
  rw [applyRule_id h1.1, applyRule_id h1.2.1, applyRule_id h1.2.2.1, applyRule_id h1.2.2.2]

/-- On environment-free input, normalization output has at most one dollar
    sign, so both dollar rules act as identities on a second pass. -/
theorem standardizeData_idem {xs : List Char} (h : envFree xs) :
    standardizeData (standardizeData xs) = standardizeData xs := by
  have hstep := standardizeData_envFree h
  set y1 := applyRule ddTok ddTok dispOpen dispClose xs with hy1
  set y := applyRule ['$'] ['$'] inlOpen inlClose y1 with hy
  have hcount : List.count '$' y ≤ 1 := by
    rw [hy, applyRule]
    exact count_subAll_single (by decide) (by decide) _ _ (le_refl _)
  have heyf : envFree y := by
    rw [hy]
    exact envFree_rule_inl (by rw [hy1]; exact envFree_rule_dd h)
  have hnodd : ¬ occursIn ddTok y := by
    intro ho
    have h2 : 2 ≤ List.count '$' y := count_two_of_occursIn (by
      have : ddTok = ['$', '$'] := by decide
      rwa [this] at ho)
    omega
  have hfm : findMatch ['$'] ['$'] y = none := findMatch_single_of_count hcount
  rw [hstep]
  rw [standardizeData_envFree heyf]
  rw [applyRule_id hnodd]
  rw [applyRule]
  rw [subAll_id_of_none hfm]

/-- C5 (amended): `standardize_math_delimiters` is idempotent on every text
    that contains no `equation`/`align` environment marker.  (On texts with
    such markers, each pass wraps the environment in another display
    wrapper, see the counterexample.) -/
theorem standardize_math_delimiters_idem (x : String)
    (h1 : containsTok eqOpen x.data = false) (h2 : containsTok eqsOpen x.data = false)
    (h3 : containsTok alOpen x.data = false) (h4 : containsTok alsOpen x.data = false) :
    standardize_math_delimiters (standardize_math_delimiters x) =
      standardize_math_delimiters x := by
  have hfree : envFree x.data := by
    refine ⟨?_, ?_, ?_, ?_⟩ <;>
      exact fun ho => by
        first
        | (rw [(containsTok_iff _ _).mpr ho] at h1; cases h1)
        | (rw [(containsTok_iff _ _).mpr ho] at h2; cases h2)
        | (rw [(containsTok_iff _ _).mpr ho] at h3; cases h3)
        | (rw [(containsTok_iff _ _).mpr ho] at h4; cases h4)
  show (⟨standardizeData (standardize_math_delimiters x).data⟩ : String) = _
  show (⟨standardizeData (standardizeData x.data)⟩ : String) = _
  rw [standardizeData_idem hfree]
  rfl

/-- Witness for C5: the amended idempotence theorem applied to a concrete
    environment-free text. -/
theorem standardize_math_delimiters_idem_witness :
    standardize_math_delimiters (standardize_math_delimiters "$$a$$ and $b$") =
      standardize_math_delimiters "$$a$$ and $b$" :=
  standardize_math_delimiters_idem "$$a$$ and $b$" (by decide) (by decide) (by decide)
    (by decide)

/-- Counterexample for C5 as stated: on a text consisting of an `equation`
    environment, a second normalization pass wraps the environment in a
    second display wrapper, so normalization is not idempotent on all texts. -/
theorem standardize_math_delimiters_not_idem :
    standardize_math_delimiters
        (standardize_math_delimiters "\\begin{equation}a\\end{equation}") ≠
      standardize_math_delimiters "\\begin{equation}a\\end{equation}" := by decide

/-! ## Locating a balanced double-dollar block -/

theorem isPrefixOf_cons_false {a x : Char} {opn' t : List Char} (h : x ≠ a) :
    (a :: opn').isPrefixOf (x :: t) = false := by
  simp [List.isPrefixOf]
  intro he
  exact absurd he.symm h

/-- A rule whose opening token starts with a character absent from `u`
    cannot match inside `u`: matching commutes with prepending `u`. -/
theorem findMatch_prepend {a : Char} {opn' cls : List Char} {u w : List Char}
    (ha : a ∉ u) :
    findMatch (a :: opn') cls (u ++ w) =
      match findMatch (a :: opn') cls w with
      | none => none
      | some (b, c, r) => some (u ++ b, c, r) := by
  induction u with
  | nil =>
    cases hm : findMatch (a :: opn') cls w with
    | none => simp [hm]
    | some pr => obtain ⟨b, c, r⟩ := pr; simp [hm]
  | cons x u' ih =>
    have hx : x ≠ a := fun he => ha (by simp [he])
    have ha' : a ∉ u' := fun hm => ha (List.mem_cons_of_mem _ hm)
    simp only [List.cons_append, findMatch]
    rw [isPrefixOf_cons_false hx]
    simp only [Bool.false_eq_true, if_false, List.append_eq]
    rw [ih ha']
    cases hm : findMatch (a :: opn') cls w with
    | none => simp
    | some pr => obtain ⟨b, c, r⟩ := pr; simp

theorem subAll_prepend {a : Char} {opn' cls io ic : List Char} {u w : List Char}
    (ha : a ∉ u) (f : Nat) :
    subAll (a :: opn') cls io ic f (u ++ w) = u ++ subAll (a :: opn') cls io ic f w := by
  cases f with
  | zero => rfl
  | succ g =>
    simp only [subAll]
    rw [findMatch_prepend ha]
    cases hm : findMatch (a :: opn') cls w with
    | none => simp [hm]
    | some pr =>
      obtain ⟨b, c, r⟩ := pr
      simp [hm, List.append_assoc]

theorem findClose_dd {E v : List Char} (hE : '$' ∉ E) :
    findClose ['$', '$'] (E ++ '$' :: '$' :: v) = some (E, v) := by
  induction E with
  | nil => simp [findClose, List.isPrefixOf]
  | cons e E' ih =>
    have he : e ≠ '$' := fun h2 => hE (by simp [h2])
    have hE' : '$' ∉ E' := fun hm => hE (List.mem_cons_of_mem _ hm)
    simp only [List.cons_append, findClose]
    rw [isPrefixOf_cons_false he]
    simp only [Bool.false_eq_true, if_false, List.append_eq]
    rw [ih hE']

/-- The display rule's first match on `u $$E$$ v` (with `u`, `E`
    dollar-free) is exactly the double-dollar block. -/
theorem findMatch_block {u E v : List Char} (hu : '$' ∉ u) (hE : '$' ∉ E) :
    findMatch ['$', '$'] ['$', '$'] (u ++ '$' :: '$' :: (E ++ '$' :: '$' :: v)) =
      some (u, E, v) := by
  rw [findMatch_prepend hu]
  have hstep : findMatch ['$', '$'] ['$', '$'] ('$' :: '$' :: (E ++ '$' :: '$' :: v)) =
      some ([], E, v) := by
    simp only [findMatch]
    rw [if_pos (by simp [List.isPrefixOf])]
    have hdrop : List.drop (['$', '$'] : List Char).length
        ('$' :: '$' :: (E ++ '$' :: '$' :: v)) = E ++ '$' :: '$' :: v := rfl
    rw [hdrop, findClose_dd hE]
  rw [hstep]
  simp

/-- C6 (amended), list level: for a text `u ++ $$E$$ ++ v` where `u` and
    `E` are dollar-free and `u`, `E`, `v` are backslash-free, the whole
    normalization turns the block into exactly one display wrapper with
    `E` unchanged, and the inline rule does not further alter it. -/
theorem standardize_block (u E v : List Char)
    (huD : '$' ∉ u) (hED : '$' ∉ E)
    (huB : '\\' ∉ u) (hEB : '\\' ∉ E) (hvB : '\\' ∉ v) :
    ∃ w, standardizeData (u ++ '$' :: '$' :: (E ++ '$' :: '$' :: v)) =
      u ++ dispOpen ++ E ++ dispClose ++ w := by
  set xs := u ++ '$' :: '$' :: (E ++ '$' :: '$' :: v) with hxs
  have hBxs : '\\' ∉ xs := by
    rw [hxs]
    simp only [List.mem_append, List.mem_cons]
    rintro (h | h | h | h | h | h | h)
    · exact huB h
    · exact absurd h (by decide)
    · exact absurd h (by decide)
    · exact hEB h
    · exact absurd h (by decide)
    · exact absurd h (by decide)
    · exact hvB h
  have hfree : envFree xs := by
    refine ⟨?_, ?_, ?_, ?_⟩ <;>
      exact fun ho => hBxs (mem_of_occursIn (by decide) ho)
  have hlen : ∃ g, xs.length = g + 1 := by
    refine ⟨u.length + E.length + v.length + 3, ?_⟩
    rw [hxs]
    simp only [List.length_append, List.length_cons]
    omega
  obtain ⟨g, hg⟩ := hlen
  have hdd : ddTok = ['$', '$'] := by decide
  have hr1 : applyRule ddTok ddTok dispOpen dispClose xs =
      u ++ dispOpen ++ E ++ dispClose ++
        subAll ['$', '$'] ['$', '$'] dispOpen dispClose g v := by
    rw [applyRule, hdd, hg]
    simp only [subAll]
    rw [hxs, findMatch_block huD hED]
  have hstep := standardizeData_envFree hfree
  rw [hstep, hr1]
  set t := subAll ['$', '$'] ['$', '$'] dispOpen dispClose g v with ht
  have hPd : '$' ∉ u ++ dispOpen ++ E ++ dispClose := by
    simp only [List.mem_append]
    rintro ((( h | h) | h) | h)
    · exact huD h
    · exact absurd h (by decide)
    · exact hED h
    · exact absurd h (by decide)
  refine ⟨subAll ['$'] ['$'] inlOpen inlClose
      ((u ++ dispOpen ++ E ++ dispClose ++ t).length) t, ?_⟩
  rw [applyRule]
  rw [subAll_prepend hPd]

/-- C6 (amended): for every text `u ++ "$$" ++ E ++ "$$" ++ v` in which
    `u` and `E` contain no dollar sign and `u`, `E`, `v` contain no
    backslash, normalization replaces the double-dollar block with exactly
    one canonical display wrapper containing `E` unchanged, the
    double-dollar rule having run before the single-dollar rule, and the
    later single-dollar pass does not alter the converted block. -/
theorem standardize_math_delimiters_block (u E v : String)
    (huD : '$' ∉ u.data) (hED : '$' ∉ E.data)
    (huB : '\\' ∉ u.data) (hEB : '\\' ∉ E.data) (hvB : '\\' ∉ v.data) :
    ∃ w : String, standardize_math_delimiters (u ++ "$$" ++ E ++ "$$" ++ v) =
      u ++ "\\[" ++ E ++ "\\]" ++ w := by
  obtain ⟨wd, hwd⟩ := standardize_block u.data E.data v.data huD hED huB hEB hvB
  refine ⟨⟨wd⟩, ?_⟩
  apply String.ext
  show standardizeData (u ++ "$$" ++ E ++ "$$" ++ v).data = _
  have hdata : (u ++ "$$" ++ E ++ "$$" ++ v).data =
      u.data ++ '$' :: '$' :: (E.data ++ '$' :: '$' :: v.data) := by
    simp [String.data_append]
  rw [hdata, hwd]
  show _ = (u ++ "\\[" ++ E ++ "\\]" ++ (⟨wd⟩ : String)).data
  simp [String.data_append, dispOpen, dispClose]

/-- Witness for C6: the amended theorem applied at `u = "see "`,
    `E = "x+y"`, `v = " done"`. -/
theorem standardize_math_delimiters_block_witness :
    ∃ w : String, standardize_math_delimiters ("see " ++ "$$" ++ "x+y" ++ "$$" ++ " done") =
      "see " ++ "\\[" ++ "x+y" ++ "\\]" ++ w :=
  standardize_math_delimiters_block "see " "x+y" " done" (by decide) (by decide) (by decide)
    (by decide) (by decide)

/-- Counterexample for C6 as stated: in `"$$a$b$$c$d"` the block `$$a$b$$`
    is balanced, yet the final output does not contain the canonical
    wrapper `\[a$b\]` at all — the later single-dollar pass consumed the
    dollar inside the converted block and corrupted it. -/
theorem standardize_math_delimiters_block_cex :
    standardize_math_delimiters "$$a$b$$c$d" = "\\[a\\(b\\]c\\)d" ∧
      containsTok "\\[a$b\\]".data (standardize_math_delimiters "$$a$b$$c$d").data = false := by
  refine ⟨by decide, by decide⟩

/-! ## URL splitting and joining, following `urllib.parse` (CPython 3.11)

`importer.py` resolves references with `urljoin`, inspects schemes with
`urlsplit(...).scheme`, and builds `file:` base URLs with `urlunsplit`.
We embed those library functions (without the rarely used `;parameters`
component of `urlparse`, which none of the importer's URLs exercise). -/

def splitFirst (sep : Char) : List Char → Option (List Char × List Char)
  | [] => none
  | c :: rest =>
    if c = sep then some ([], rest)
    else
      match splitFirst sep rest with
      | some (a, b) => some (c :: a, b)
      | none => none

/-- Characters allowed in a URL scheme (`scheme_chars` of `urllib.parse`). -/
def isSchemeChar (c : Char) : Bool :=
  c.isAlpha || c.isDigit || c == '+' || c == '-' || c == '.'

structure SplitUrl where
  scheme : List Char
  netloc : List Char
  path : List Char
  query : List Char
  fragment : List Char
  deriving DecidableEq, Repr

/-- `urllib.parse.urlsplit`: scheme (lower-cased, only when the text before
    the first colon is a valid scheme starting with a letter), then a
    `//netloc` delimited by `/?#`, then the fragment after the first `#`,
    then the query after the first `?`. -/
def urlsplitData (url : List Char) : SplitUrl :=
  let p1 :=
    match splitFirst ':' url with
    | some (pre, post) =>
      match pre with
      | [] => ([], url)
      | c :: _ =>
        if c.isAlpha && pre.all isSchemeChar then (pre.map Char.toLower, post)
        else ([], url)
    | none => ([], url)
  let scheme := p1.1
  let u1 := p1.2
  let notDelim : Char → Bool := fun c => !(c == '/' || c == '?' || c == '#')
  let p2 :=
    match u1 with
    | '/' :: '/' :: rest => (rest.takeWhile notDelim, rest.dropWhile notDelim)
    | _ => ([], u1)
  let netloc := p2.1
  let u2 := p2.2
  let p3 :=
    match splitFirst '#' u2 with
    | some (a, b) => (a, b)
    | none => (u2, [])
  let u3 := p3.1
  let fragment := p3.2
  let p4 :=
    match splitFirst '?' u3 with
    | some (a, b) => (a, b)
    | none => (u3, [])
  ⟨scheme, netloc, p4.1, p4.2, fragment⟩

/-- Schemes treated as relative-capable by `urllib.parse.urljoin`. -/
def usesRelative : List (List Char) :=
  ["", "ftp", "http", "gopher", "nntp", "imap", "wais", "file", "https", "shttp",
    "mms", "prospero", "rtsp", "rtspu", "sftp", "svn", "svn+ssh", "ws", "wss"].map
    String.data

/-- Schemes that carry a network location in `urllib.parse`. -/
def usesNetloc : List (List Char) :=
  ["", "ftp", "http", "gopher", "nntp", "telnet", "imap", "wais", "file", "mms",
    "https", "shttp", "snews", "prospero", "rtsp", "rtspu", "rsync", "svn",
    "svn+ssh", "sftp", "nfs", "git", "git+ssh", "ws", "wss", "itms-services"].map
    String.data

/-- `urllib.parse.urlunsplit` (CPython 3.11). -/
def urlunsplitData (s : SplitUrl) : List Char :=
  let url := s.path
  let url :=
    if s.netloc ≠ [] ∨ (s.scheme ≠ [] ∧ s.scheme ∈ usesNetloc ∧ url.take 2 ≠ ['/', '/']) then
      let url1 := if url ≠ [] ∧ url.take 1 ≠ ['/'] then '/' :: url else url
      '/' :: '/' :: (s.netloc ++ url1)
    else url
  let url := if s.scheme ≠ [] then s.scheme ++ ':' :: url else url
  let url := if s.query ≠ [] then url ++ '?' :: s.query else url
  if s.fragment ≠ [] then url ++ '#' :: s.fragment else url

/-- Python `str.split(sep)` for a single character: never returns `[]`. -/
def splitOnChar (sep : Char) : List Char → List (List Char)
  | [] => [[]]
  | c :: rest =>
    match splitOnChar sep rest with
    | [] => [[]]
    | h :: t => if c = sep then [] :: h :: t else (c :: h) :: t

/-- `segments[1:-1] = filter(None, segments[1:-1])`: drop empty interior
    segments, keeping the first and last. -/
def filterInterior : List (List Char) → List (List Char)
  | [] => []
  | [x] => [x]
  | x :: y :: rest =>
    x :: ((((y :: rest).dropLast).filter (fun s => s ≠ [])) ++ [(y :: rest).getLastD []])

/-- The dot-segment resolution loop of `urljoin`. -/
def resolveSegs : List (List Char) → List (List Char) → List (List Char)
  | acc, [] => acc
  | acc, seg :: rest =>
    if seg = ['.', '.'] then resolveSegs acc.dropLast rest
    else if seg = ['.'] then resolveSegs acc rest
    else resolveSegs (acc ++ [seg]) rest

/-- `urllib.parse.urljoin` (CPython 3.11, `;parameters` not modelled). -/
def urljoinData (base rel : List Char) : List Char :=
  if base = [] then rel
  else if rel = [] then base
  else
    let b := urlsplitData base
    let r0 := urlsplitData rel
    let scheme := if r0.scheme = [] then b.scheme else r0.scheme
    if scheme ≠ b.scheme ∨ scheme ∉ usesRelative then rel
    else if scheme ∈ usesNetloc ∧ r0.netloc ≠ [] then
      urlunsplitData ⟨scheme, r0.netloc, r0.path, r0.query, r0.fragment⟩
    else
      let netloc := if scheme ∈ usesNetloc then b.netloc else r0.netloc
      if r0.path = [] then
        let query := if r0.query = [] then b.query else r0.query
        urlunsplitData ⟨scheme, netloc, b.path, query, r0.fragment⟩
      else
        let baseParts0 := splitOnChar '/' b.path
        let baseParts :=
          if baseParts0.getLastD [] ≠ [] then baseParts0.dropLast else baseParts0
        let segments :=
          if r0.path.take 1 = ['/'] then splitOnChar '/' r0.path
          else filterInterior (baseParts ++ splitOnChar '/' r0.path)
        let resolved := resolveSegs [] segments
        let resolved :=
          if segments.getLastD [] = ['.'] ∨ segments.getLastD [] = ['.', '.'] then
            resolved ++ [[]]
          else resolved
        let jp := List.intercalate ['/'] resolved
        let path := if jp = [] then ['/'] else jp
        urlunsplitData ⟨scheme, netloc, path, r0.query, r0.fragment⟩

def urljoin (base rel : String) : String := ⟨urljoinData base.data rel.data⟩

def urlsplitScheme (url : String) : String := ⟨(urlsplitData url.data).scheme⟩

example : urljoin "http://a/b/" "bar.html" = "http://a/b/bar.html" := by decide
example : urljoin "http://a/b/c" "bar.html" = "http://a/b/bar.html" := by decide
example : urljoin "http://a/b/c" "#frag" = "http://a/b/c#frag" := by decide
example : urljoin "file:/x/y.html" "img.png" = "file:///x/img.png" := by decide
example : urljoin "http://a/b/c" "//h/p" = "http://h/p" := by decide
example : urljoin "http://a/b/c" "../../../d" = "http://a/d" := by decide
example : urljoin "http://a/b/c" "ftp://z/q" = "ftp://z/q" := by decide
example : urljoin "http://a/b/" "" = "http://a/b/" := by decide
example : urljoin "http://a/b/x" "./" = "http://a/b/" := by decide
example : urlsplitScheme "localhost:8080" = "localhost" := by decide
example : urlsplitScheme "HTTP://a/b?q#f" = "http" := by decide
example : urlsplitScheme "example.com/x" = "" := by decide
example : urlsplitScheme "://foo" = "" := by decide
example : urlunsplitData ⟨"file".data, [], "/x/y.html".data, [], []⟩ =
    "file:///x/y.html".data := by decide

/-! ## Parsed HTML documents

BeautifulSoup's duck-typed node objects are embedded as a typed AST: a
document is a forest of element/text/comment nodes (the lenient
`html.parser` backend adds no implicit `html`/`body` elements).  Parsing
itself is the external library's job; the importer's tree manipulations
are embedded below. -/

/-- Attributes in document order, as BeautifulSoup keeps them. -/
abbrev Attrs := List (String × String)

mutual
inductive Node where
  | element (tag : String) (attrs : Attrs) (children : NodeList)
  | text (s : String)
  | comment (s : String)
inductive NodeList where
  | nil
  | cons (head : Node) (tail : NodeList)
end

/-- Build a forest from a list literal. -/
def nodesOf : List Node → NodeList
  | [] => .nil
  | n :: rest => .cons n (nodesOf rest)

/-- Element constructor taking a list literal of children. -/
def el (tag : String) (attrs : Attrs) (children : List Node) : Node :=
  .element tag attrs (nodesOf children)

/-- `tag.get(key)`: the attribute's value when present. -/
def attrGet (attrs : Attrs) (k : String) : Option String :=
  (attrs.find? (fun p => p.1 == k)).map Prod.snd

/-- Python truthiness of `tag.get(key)`: present and non-empty. -/
def attrTruthy (attrs : Attrs) (k : String) : Bool :=
  match attrGet attrs k with
  | some v => v ≠ ""
  | none => false

/-- `tag[key] = value`: overwrite the entry in place or append it
    (attribute dicts are duplicate-free). -/
def attrSet : Attrs → String → String → Attrs
  | [], k, v => [(k, v)]
  | (k', v') :: rest, k, v =>
    if k' == k then (k, v) :: rest else (k', v') :: attrSet rest k v

/-- `tag[key]`: raises `KeyError` when the attribute is absent. -/
def attrGetItem (attrs : Attrs) (k : String) : Except PyErr String :=
  match attrGet attrs k with
  | some v => .ok v
  | none => .error .keyError

/-- `del tag[key]`: BeautifulSoup's `__delitem__` tolerates absence. -/
def attrDel (attrs : Attrs) (k : String) : Attrs :=
  attrs.filter (fun p => p.1 ≠ k)

/-- Serialize attributes as ` k="v"` pairs, in order. -/
def serializeAttrs (attrs : Attrs) : String :=
  attrs.foldl (fun acc p => acc ++ " " ++ p.1 ++ "=\"" ++ p.2 ++ "\"") ""

/-- `str(node)` over a forest: concatenation of each node's serialized
    form (`str` of a BeautifulSoup node). -/
def serializeNodes : NodeList → String
  | .nil => ""
  | .cons (.text s) rest => s ++ serializeNodes rest
  | .cons (.comment s) rest => "<!--" ++ s ++ "-->" ++ serializeNodes rest
  | .cons (.element t a cs) rest =>
    "<" ++ t ++ serializeAttrs a ++ ">" ++ serializeNodes cs ++ "</" ++ t ++ ">" ++
      serializeNodes rest

def serializeNode (n : Node) : String := serializeNodes (.cons n .nil)

example : serializeNode (el "p" [("id", "x")] [.text "hi"]) = "<p id=\"x\">hi</p>" := by
  decide

/-- Step (1) of `_cleanWebpage`: `for tagName in badTags: find_all(tagName).decompose()`.
    Sequential per-tag decomposition equals removing every blocklisted
    element together with its subtree. -/
def removeTags (bad : List String) : NodeList → NodeList
  | .nil => .nil
  | .cons (.element t a cs) rest =>
    if t ∈ bad then removeTags bad rest
    else .cons (.element t a (removeTags bad cs)) (removeTags bad rest)
  | .cons n rest => .cons n (removeTags bad rest)

/-- Step (2): extract every comment node. -/
def removeComments : NodeList → NodeList
  | .nil => .nil
  | .cons (.comment _) rest => removeComments rest
  | .cons (.element t a cs) rest => .cons (.element t a (removeComments cs)) (removeComments rest)
  | .cons n rest => .cons n (removeComments rest)

/-- `soup.text`: concatenation of all string descendants. -/
def docText : NodeList → String
  | .nil => ""
  | .cons (.text s) rest => s ++ docText rest
  | .cons (.comment s) rest => s ++ docText rest
  | .cons (.element _ _ cs) rest => docText cs ++ docText rest

/-- `soup.find(tag)`: first matching element in document (pre-)order. -/
def findElement (tag : String) : NodeList → Option Node
  | .nil => none
  | .cons (.element t a cs) rest =>
    if t = tag then some (.element t a cs)
    else
      match findElement tag cs with
      | some n => some n
      | none => findElement tag rest
  | .cons _ rest => findElement tag rest

/-- Python's substring operator `in`. -/
def strContains (needle hay : String) : Bool := containsTok needle.data hay.data

/-- The loop of `is_using_mathjax` over `find_all('script', {'src': True})`:
    first script whose `src` contains `MathJax.js` or `mathjax`. -/
def mathjaxSrcScan : NodeList → Option String
  | .nil => none
  | .cons (.element t a cs) rest =>
    if t == "script" && (attrGet a "src").isSome &&
        (strContains "MathJax.js" ((attrGet a "src").getD "") ||
          strContains "mathjax" ((attrGet a "src").getD "")) then
      some ((attrGet a "src").getD "")
    else
      match mathjaxSrcScan cs with
      | some s => some s
      | none => mathjaxSrcScan rest
  | .cons _ rest => mathjaxSrcScan rest

/-- `find_all('script', {'type': 'text/x-mathjax-config'})` is non-empty. -/
def hasInlineMathjaxConfig : NodeList → Bool
  | .nil => false
  | .cons (.element t a cs) rest =>
    (t == "script" && attrGet a "type" == some "text/x-mathjax-config") ||
      hasInlineMathjaxConfig cs || hasInlineMathjaxConfig rest
  | .cons _ rest => hasInlineMathjaxConfig rest

/-- `Importer.is_using_mathjax` over the parsed document. -/
def is_using_mathjax (doc : NodeList) : Bool × String :=
  match mathjaxSrcScan doc with
  | some src => (true, src)
  | none =>
    if hasInlineMathjaxConfig doc then (true, "Found inline MathJax configuration")
    else (false, "MathJax not detected")

/-- A single apostrophe, used by the onclick handler text. -/
def apos : String := String.singleton (Char.ofNat 39)

/-- The onclick scroll handler written for named-anchor links. -/
def onclickHandler (named : String) : String :=
  "document.location.hash=" ++ apos ++ named ++ apos ++ ";"

def strHeadIs (c : Char) (s : String) : Bool :=
  match s.data with
  | [] => false
  | a :: _ => a == c

def strDropFirst (s : String) : String := ⟨s.data.drop 1⟩

/-- `Importer._processATag`. -/
def processATag (url : String) (attrs : Attrs) : Attrs :=
  if attrTruthy attrs "href" then
    let href := (attrGet attrs "href").getD ""
    if strHeadIs '#' href then
      if !(attrTruthy attrs "onclick") then
        let named := strDropFirst href
        attrSet (attrSet attrs "href" "javascript:;") "onclick" (onclickHandler named)
      else attrs
    else attrSet attrs "href" (urljoin url href)
  else attrs

/-- posix `url2pathname`; the importer's paths carry no percent-escapes,
    which are therefore not modelled. -/
def url2pathname (p : String) : String := p

def urlsplitPath (url : String) : String := ⟨(urlsplitData url.data).path⟩

/-- `Importer._processImgTag`; `addFile` is `mw.col.media.add_file`. -/
def processImgTag (url : String) (addFile : String → String) (attrs : Attrs)
    (local_ : Bool) : Except PyErr Attrs :=
  let attrs1 :=
    if attrTruthy attrs "src" then
      attrSet attrs "src" (urljoin url ((attrGet attrs "src").getD ""))
    else attrs
  let step : Except PyErr Attrs :=
    if local_ then
      match attrGetItem attrs1 "src" with
      | .error e => .error e
      | .ok src =>
        if urlsplitScheme src = "file" then
          .ok (attrSet attrs1 "src" (addFile (url2pathname (urlsplitPath src))))
        else .ok attrs1
    else .ok attrs1
  match step with
  | .error e => .error e
  | .ok attrs2 => .ok (attrDel attrs2 "srcset")

/-- `Importer._processLinkTag`. -/
def processLinkTag (url : String) (addFile : String → String) (attrs : Attrs)
    (local_ : Bool) : Except PyErr Attrs :=
  let attrs1 :=
    if attrTruthy attrs "href" then
      attrSet attrs "href" (urljoin url ((attrGet attrs "href").getD ""))
    else attrs
  if local_ then
    match attrGetItem attrs1 "href" with
    | .error e => .error e
    | .ok href =>
      if urlsplitScheme href = "file" then
        .ok (attrSet attrs1 "href" (addFile (url2pathname (urlsplitPath href))))
      else .ok attrs1
  else .ok attrs1

/-- Apply a per-tag attribute rewrite over the whole tree in document
    order, stopping at the first raised error, as the `find_all` loops of
    `_cleanWebpage` do. -/
def mapTagAttrs (tag : String) (f : Attrs → Except PyErr Attrs) : NodeList → Except PyErr NodeList
  | .nil => .ok .nil
  | .cons (.element t a cs) rest =>
    match (if t = tag then f a else .ok a) with
    | .error e => .error e
    | .ok a2 =>
      match mapTagAttrs tag f cs with
      | .error e => .error e
      | .ok cs2 =>
        match mapTagAttrs tag f rest with
        | .error e => .error e
        | .ok rest2 => .ok (.cons (.element t a2 cs2) rest2)
  | .cons n rest =>
    match mapTagAttrs tag f rest with
    | .error e => .error e
    | .ok rest2 => .ok (.cons n rest2)

/-- `'\n'.join(map(str, body.children))`. -/
def serializeChildrenJoined : NodeList → String
  | .nil => ""
  | .cons n .nil => serializeNode n
  | .cons n rest => serializeNode n ++ "\n" ++ serializeChildrenJoined rest

def bodyChildren : Node → NodeList
  | .element _ _ cs => cs
  | _ => .nil

/-- `Importer._cleanWebpage`, over the already-parsed document.  Math
    detection runs on the original document, before tag removal.  Returns
    the serialized body text and the processed document. -/
def cleanWebpage (badTags : List String) (addFile : String → String) (doc : NodeList)
    (url : String) (local_ : Bool) : Except PyErr (String × NodeList) :=
  let use_mathjax := (is_using_mathjax doc).1
  let d1 := removeTags badTags doc
  let d2 := removeComments d1
  match mapTagAttrs "a" (fun a => .ok (processATag url a)) d2 with
  | .error e => .error e
  | .ok d3 =>
    match mapTagAttrs "img" (fun a => processImgTag url addFile a local_) d3 with
    | .error e => .error e
    | .ok d4 =>
      match mapTagAttrs "link" (fun a => processLinkTag url addFile a local_) d4 with
      | .error e => .error e
      | .ok d5 =>
        let body :=
          match findElement "body" d5 with
          | some b => serializeChildrenJoined (bodyChildren b)
          | none => docText d5
        let body2 := if use_mathjax then standardize_math_delimiters body else body
        .ok (body2, d5)

deriving instance DecidableEq for Except

/-- Result projections used to state facts about `cleanWebpage` without
    needing decidable equality of whole documents. -/
def cleanBody (badTags : List String) (addFile : String → String) (doc : NodeList)
    (url : String) (local_ : Bool) : Except PyErr String :=
  match cleanWebpage badTags addFile doc url local_ with
  | .error e => .error e
  | .ok p => .ok p.1

def cleanDocSerialized (badTags : List String) (addFile : String → String) (doc : NodeList)
    (url : String) (local_ : Bool) : Except PyErr String :=
  match cleanWebpage badTags addFile doc url local_ with
  | .error e => .error e
  | .ok p => .ok (serializeNodes p.2)

example :
    cleanBody ["script"] id
      (nodesOf [el "body" [] [.comment "c", el "script" [] [.text "x"], .text "hi"]])
      "http://h/" false = .ok "hi" := by decide

example :
    cleanDocSerialized ["script"] id
      (nodesOf [el "body" [] [.comment "c", el "script" [] [.text "x"], .text "hi"]])
      "http://h/" false = .ok "<body>hi</body>" := by decide

example :
    cleanBody [] id (nodesOf [el "p" [] [.text "plain"]]) "http://h/" false =
      .ok "plain" := by decide

theorem attrGet_attrSet_same (a : Attrs) (k v : String) :
    attrGet (attrSet a k v) k = some v := by
  induction a with
  | nil => simp [attrSet, attrGet, List.find?]
  | cons p rest ih =>
    obtain ⟨k', v'⟩ := p
    by_cases hk : k' = k
    · simp [attrSet, hk, attrGet, List.find?]
    · simp only [attrSet]
      rw [if_neg (by simpa using hk)]
      simp only [attrGet, List.find?] at ih ⊢
      rw [show (((k', v') : String × String).1 == k) = false by simpa using hk]
      exact ih

theorem attrGet_attrSet_ne (a : Attrs) {k k' : String} (v : String) (h : k' ≠ k) :
    attrGet (attrSet a k v) k' = attrGet a k' := by
  induction a with
  | nil =>
    simp [attrSet, attrGet, List.find?, show (k == k') = false by simpa using (Ne.symm h)]
  | cons p rest ih =>
    obtain ⟨k2, v2⟩ := p
    by_cases hk : k2 = k
    · simp only [attrSet]
      rw [if_pos (by simpa using hk)]
      simp only [attrGet, List.find?]
      rw [show (k == k') = false by simpa using (Ne.symm h),
        show (k2 == k') = false by simpa using (hk ▸ Ne.symm h)]
    · simp only [attrSet]
      rw [if_neg (by simpa using hk)]
      simp only [attrGet, List.find?] at ih ⊢
      cases hq : (k2 == k')
      · simpa [hq] using ih
      · simp [hq]

/-- C3 (code bug): for a document element lacking its `src` (resp. `href`)
    attribute, the sanitizer skips it without error only in the remote
    case; with `isLocal = true` the unguarded `img['src']` / `link['href']`
    subscript raises `KeyError`, aborting the clean, contrary to the
    documented leniency.  Shown on the raw processors and through the whole
    `_cleanWebpage` pipeline. -/
theorem processImgTag_missing_attr_keyError :
    processImgTag "http://h/p" id [] false = .ok [] ∧
    processLinkTag "http://h/p" id [] false = .ok [] ∧
    processImgTag "http://h/p" id [] true = .error .keyError ∧
    processLinkTag "http://h/p" id [] true = .error .keyError ∧
    cleanBody [] id (nodesOf [el "body" [] [el "img" [] []]]) "http://h/p" false =
      .ok "<img></img>" ∧
    cleanBody [] id (nodesOf [el "body" [] [el "img" [] []]]) "file:/a.html" true =
      .error .keyError := by decide

/-- C8 (amended): anchor rewriting per `_processATag`.  A fragment link is
    rewritten to the no-op `javascript:;` navigation plus the onclick
    scroll handler only when the anchor has no (non-empty) `onclick`
    attribute already; a fragment link on an anchor with an existing
    onclick is left unchanged (so a fragment `href` can survive in the
    output); every other non-empty `href` is resolved with standard
    URL-join semantics against the base URL. -/
theorem processATag_href_c8 (base : String) (attrs : Attrs) (href : String)
    (hh : attrGet attrs "href" = some href) :
    (href = "" → processATag base attrs = attrs) ∧
    (strHeadIs '#' href = true → attrTruthy attrs "onclick" = false →
      attrGet (processATag base attrs) "href" = some "javascript:;" ∧
      attrGet (processATag base attrs) "onclick" =
        some (onclickHandler (strDropFirst href))) ∧
    (strHeadIs '#' href = true → attrTruthy attrs "onclick" = true →
      processATag base attrs = attrs) ∧
    (href ≠ "" → strHeadIs '#' href = false →
      attrGet (processATag base attrs) "href" = some (urljoin base href)) := by
  by_cases he : href = ""
  · subst he
    have htr : attrTruthy attrs "href" = false := by
      simp [attrTruthy, hh]
    refine ⟨fun _ => by simp [processATag, htr], ?_, ?_, ?_⟩
    · intro hsh
      simp [strHeadIs] at hsh
    · intro hsh
      simp [strHeadIs] at hsh
    · intro hne
      exact absurd rfl hne
  · have htr : attrTruthy attrs "href" = true := by
      simp [attrTruthy, hh, he]
    refine ⟨fun h => absurd h he, ?_, ?_, ?_⟩
    · intro hsh hoc
      have hstep : processATag base attrs =
          attrSet (attrSet attrs "href" "javascript:;") "onclick"
            (onclickHandler (strDropFirst href)) := by
        simp [processATag, htr, hh, hsh, hoc]
      rw [hstep]
      constructor
      · rw [attrGet_attrSet_ne (attrSet attrs "href" "javascript:;")
          (onclickHandler (strDropFirst href)) (show "href" ≠ "onclick" by decide)]
        exact attrGet_attrSet_same attrs "href" "javascript:;"
      · exact attrGet_attrSet_same _ "onclick" _
    · intro hsh hoc
      simp [processATag, htr, hh, hsh, hoc]
    · intro _ hsh
      have hstep : processATag base attrs = attrSet attrs "href" (urljoin base href) := by
        simp [processATag, htr, hh, hsh]
      rw [hstep]
      exact attrGet_attrSet_same attrs "href" _

/-- Witness for C8: the amended theorem applied to a relative link and to
    a fragment link without onclick, at concrete inputs. -/
theorem processATag_href_c8_witness :
    attrGet (processATag "http://a/b/" [("href", "bar.html")]) "href" =
      some (urljoin "http://a/b/" "bar.html") :=
  (processATag_href_c8 "http://a/b/" [("href", "bar.html")] "bar.html"
    (by decide)).2.2.2 (by decide) (by decide)

/-- Counterexample for C8 as stated: an anchor whose fragment `href`
    coexists with an `onclick` attribute is left untouched, so its output
    `href` still is a same-document fragment reference. -/
theorem processATag_href_c8_cex :
    processATag "http://a/b/" [("href", "#foo"), ("onclick", "x")] =
      [("href", "#foo"), ("onclick", "x")] ∧
    strHeadIs '#' "#foo" = true := by decide

/-! ## Importer orchestration

The importer methods run against collaborators (Anki collection, settings,
network, UI).  They are embedded as pure functions from an environment of
oracles to a result plus a chronological trace of observable events.
Python exceptions escaping a method are `Except.error`; an early `return`
is `Except.ok none`. -/

/-- Observable collaborator events, in chronological order. -/
inductive Ev where
  | fetchAttempt (url : String)
  | warning
  | critical
  | info
  | prompt
  | tooltipShown (msg : String)
  | noteAdded (title text source : String) (priority : Option String)
      (tags : Option String) (did : Nat)
  | archived (url : String)
  | progressStart (total : Nat)
  | progressUpdate (value : Nat)
  | progressFinish
  | linkLogged (feedUrl link : String)
  | etagSet (feedUrl v : String)
  | modifiedSet (feedUrl v : String)
  deriving DecidableEq, Repr

/-- Behaviour of `requests.get`: a connection failure raises
    `requests.exceptions.ConnectionError`; otherwise the `Response` object
    is returned whatever its HTTP status code (the importer never calls
    `raise_for_status`), carrying the parsed `.content`. -/
inductive ServerResp where
  | respond (status : Nat) (doc : NodeList)
  | refuse

/-- Errors out of `_fetchWebpage`.  `urllib.error.HTTPError` appears in
    the `except` clauses of the importer but cannot be produced by
    `requests.get`; it is kept here to mirror those handlers. -/
inductive FetchErr where
  | connectionError
  | httpError (code : Nat) (reason : String)
  | py (e : PyErr)

structure FeedEntry where
  title : String
  link : String
  deriving DecidableEq, Repr

structure FeedResult where
  status : Nat
  entries : List FeedEntry
  etagAttr : Option String
  modifiedAttr : Option String

structure FeedRec where
  downloaded : List String
  etag : Option String
  modified : Option String
  deriving DecidableEq, Repr

/-- The per-feed dedup/revalidation log (`settings['feedLog']`): a mapping
    from feed URL to `{downloaded, etag?, modified?}`; a missing field is a
    missing dict key. -/
abbrev FeedLog := List (String × FeedRec)

structure PocketArticle where
  given_url : String
  resolved_title : String
  deriving DecidableEq, Repr

structure EpubArticle where
  text : Option String
  title : Option String
  author : Option String
  href : String
  deriving DecidableEq, Repr

/-- Collaborator oracles and settings snapshot. -/
structure Env where
  badTags : List String
  importDeck : String
  deckByName : String → Option Nat
  curDeck : Nat
  deckName : Nat → String
  prioEnabled : Bool
  priorities : List String
  chooseIdx : Nat
  sourceFormat : String → String → String
  today : String
  textInput : String × Bool
  server : String → ServerResp
  files : String → NodeList
  isFile : String → Bool
  addFile : String → String
  pocketArticles : List (String × PocketArticle)
  pocketArchive : Bool
  localFilePick : Option String
  epubFilePick : Option String
  epubToc : String → List (String × EpubArticle)
  parseFeed : String → Option String → Option String → FeedResult
  feedLog : FeedLog

/-- Python truthiness of an optional string. -/
def truthyOpt : Option String → Option String
  | some s => if s = "" then none else some s
  | none => none

/-- `str(x)` for an optional deck name (`str(None) = "None"`). -/
def pyStr : Option String → String
  | some s => s
  | none => "None"

/-- `x or default` for `webpage.title.string or url`. -/
def orElseStr (o : Option String) (d : String) : String :=
  match o with
  | some s => if s = "" then d else s
  | none => d

/-- bs4 `.string`: the sole child when it is a string, else `None`. -/
def nodeString : NodeList → Option String
  | .cons (.text s) .nil => some s
  | _ => none

/-- `webpage.title.string`: `find('title')` returns `None` when absent and
    the `.string` access then raises `AttributeError`. -/
def titleString (doc : NodeList) : Except PyErr (Option String) :=
  match findElement "title" doc with
  | none => .error .attributeError
  | some (.element _ _ cs) => .ok (nodeString cs)
  | some _ => .error .attributeError

/-- `Importer._select`: an empty candidate list short-circuits to `[]`
    without opening the dialog; otherwise the user's multi-select result
    (the chooser oracle) is returned. -/
def selectChoices {α : Type} (chooser : List (String × α) → List α)
    (choices : List (String × α)) : List α :=
  if choices.isEmpty then [] else chooser choices

/-- `Importer._getPriority`: one `chooseList` prompt returning
    `priorities[choice]`. -/
def getPriority (env : Env) : String × List Ev :=
  (env.priorities.getD env.chooseIdx "", [.prompt])

/-- `Importer._createNote`. -/
def createNote (env : Env) (title text source : String) (priority : Option String)
    (tags : Option String) : Option String × List Ev :=
  let build : Nat → Option String × List Ev := fun did =>
    (some (env.deckName did),
      [.noteAdded title text source (truthyOpt priority) (truthyOpt tags) did])
  if env.importDeck ≠ "" then
    match env.deckByName env.importDeck with
    | none => (none, [.warning])
    | some did => build did
  else build env.curDeck

/-- `Importer._fetchWebpage`: `requests.get` followed by `_cleanWebpage`
    on the response content, whatever the response status. -/
def fetchWebpage (env : Env) (url : String) : Except FetchErr (String × NodeList) × List Ev :=
  match env.server url with
  | .refuse => (.error .connectionError, [.fetchAttempt url])
  | .respond _ doc =>
    match cleanWebpage env.badTags env.addFile doc url false with
    | .error e => (.error (.py e), [.fetchAttempt url])
    | .ok p => (.ok p, [.fetchAttempt url])

/-- `if not url: url, accepted = getText(...) else: accepted = True`. -/
def urlPromptStep (env : Env) (urlArg : Option String) : String × Bool :=
  match urlArg with
  | none => env.textInput
  | some u => if u = "" then env.textInput else (u, true)

/-- `Importer.importWebpage`. -/
def importWebpage (env : Env) (urlArg : Option String) (priority : Option String)
    (silent : Bool) (titleArg : Option String) : Except PyErr (Option String) × List Ev :=
  let url0 := (urlPromptStep env urlArg).1
  let accepted := (urlPromptStep env urlArg).2
  if url0 = "" ∨ accepted = false then (.ok none, [])
  else
    let sch := urlsplitScheme url0
    if sch ≠ "" ∧ sch ∉ ["http", "https"] then (.ok none, [.critical])
    else
      let url := if sch = "" then "http://" ++ url0 else url0
      match fetchWebpage env url with
      | (.error .connectionError, fevs) => (.ok none, fevs ++ [.warning])
      | (.error (.httpError _ _), fevs) => (.ok none, fevs ++ [.warning])
      | (.error (.py e), fevs) => (.error e, fevs)
      | (.ok (body, webpage), fevs) =>
        let source := env.sourceFormat env.today
          ("<a href=" ++ "\"" ++ url ++ "\"" ++ ">" ++ url ++ "</a>")
        let prioStep : Except PyErr (Option String × List Ev) :=
          if env.prioEnabled ∧ truthyOpt priority = none then
            match titleString webpage with
            | .error e => .error e
            | .ok _ => .ok (some (getPriority env).1, (getPriority env).2)
          else .ok (priority, [])
        match prioStep with
        | .error e => (.error e, fevs)
        | .ok (priority2, pevs) =>
          let titleStep : Except PyErr String :=
            match truthyOpt titleArg with
            | some t => .ok t
            | none =>
              match titleString webpage with
              | .error e => .error e
              | .ok ts => .ok (orElseStr ts url)
          match titleStep with
          | .error e => (.error e, fevs ++ pevs)
          | .ok title =>
            let p := createNote env title body source priority2 none
            let tevs :=
              if silent then []
              else [Ev.tooltipShown ("Added to deck: " ++ pyStr p.1)]
            (.ok p.1, fevs ++ pevs ++ p.2 ++ tevs)

/-- `urlunsplit(("file", "", filepath, None, None))`. -/
def fileUrl (fp : String) : String :=
  ⟨urlunsplitData ⟨"file".data, [], fp.data, [], []⟩⟩

def pyWordsAux : List Char → List Char → List (List Char)
  | cur, [] => if cur.isEmpty then [] else [cur.reverse]
  | cur, c :: rest =>
    if c.isWhitespace then
      if cur.isEmpty then pyWordsAux [] rest else cur.reverse :: pyWordsAux [] rest
    else pyWordsAux (c :: cur) rest

/-- `'-'.join(s.strip().split())`. -/
def dashJoin (s : String) : String :=
  String.intercalate "-" ((pyWordsAux [] s.data).map (fun l => ⟨l⟩))

/-- `Importer.importLocalFile`.  The body is recomputed from
    `webpage.find('body').children` without a guard (line 236), so a
    document with no `body` element raises `AttributeError`; the
    surrounding handlers only catch `HTTPError`/`ConnectionError`. -/
def importLocalFile (env : Env) (filepathArg : Option String) (priority : Option String)
    (silent : Bool) (front : Option String) (titleArg : Option String) :
    Except PyErr (Option String) × List Ev :=
  let fp0 :=
    match truthyOpt filepathArg with
    | some f => some f
    | none => truthyOpt env.localFilePick
  match fp0 with
  | none => (.ok none, [])
  | some fp =>
    if ¬ env.isFile fp then (.ok none, [.critical])
    else
      let url := fileUrl fp
      match cleanWebpage env.badTags env.addFile (env.files fp) url true with
      | .error e => (.error e, [])
      | .ok (_, webpage) =>
        match findElement "body" webpage with
        | none => (.error .attributeError, [])
        | some b =>
          let body := serializeChildrenJoined (bodyChildren b)
          let source := env.sourceFormat env.today (pyStr titleArg)
          let prioStep : Except PyErr (Option String × List Ev) :=
            if env.prioEnabled ∧ truthyOpt priority = none then
              match titleString webpage with
              | .error e => .error e
              | .ok _ => .ok (some (getPriority env).1, (getPriority env).2)
            else .ok (priority, [])
          match prioStep with
          | .error e => (.error e, [])
          | .ok (priority2, pevs) =>
            let frontStep : Except PyErr String :=
              match truthyOpt front with
              | some f => .ok f
              | none =>
                match titleString webpage with
                | .error e => .error e
                | .ok ts => .ok (orElseStr ts fp)
            match frontStep with
            | .error e => (.error e, pevs)
            | .ok front2 =>
              match titleArg with
              | none => (.error .attributeError, pevs)
              | some t =>
                let tags := dashJoin t
                let p := createNote env front2 body source priority2 (some tags)
                let tevs :=
                  if silent then []
                  else [Ev.tooltipShown ("Added to deck: " ++ pyStr p.1)]
                (.ok p.1, pevs ++ p.2 ++ tevs)

/-! ## Feed adapter and batch orchestrators -/

def logGet (log : FeedLog) (url : String) : Option FeedRec :=
  (log.find? (fun p => p.1 == url)).map Prod.snd

def logSet : FeedLog → String → FeedRec → FeedLog
  | [], url, r => [(url, r)]
  | (u, r0) :: rest, url, r =>
    if u == url then (url, r) :: rest else (u, r0) :: logSet rest url r

/-- `log[url]['downloaded'].append(link)`. -/
def logAppend (log : FeedLog) (url link : String) : FeedLog :=
  match logGet log url with
  | some r => logSet log url ⟨r.downloaded ++ [link], r.etag, r.modified⟩
  | none => log

/-- The per-entry loop of `importFeed`: import, append the link to the
    dedup log (whether or not the import produced a note), report
    progress.  An exception from `importWebpage` aborts the loop. -/
def feedLoop (env : Env) (priority : Option String) (url : String) :
    List FeedEntry → Nat → FeedLog → Option String →
      Except PyErr (Option String) × List Ev × FeedLog
  | [], _, log, lastDeck => (.ok lastDeck, [], log)
  | e :: rest, i, log, _ =>
    let r := importWebpage env (some e.link) priority true none
    match r.1 with
    | .error err => (.error err, r.2, log)
    | .ok deck =>
      let log2 := logAppend log url e.link
      let rec2 := feedLoop env priority url rest (i + 1) log2 deck
      (rec2.1, r.2 ++ [Ev.linkLogged url e.link, Ev.progressUpdate i] ++ rec2.2.1, rec2.2.2)

/-- The feed URL after the missing-scheme rewrite. -/
def feedUrlOf (env : Env) : String :=
  let url0 := env.textInput.1
  if urlsplitScheme url0 = "" then "http://" ++ url0 else url0

/-- The `try parse / except KeyError` block of `importFeed`: the stored
    `etag`/`modified` drive a conditional fetch; any missing key resets
    the feed record to `{'downloaded': []}` and refetches without
    validators. -/
def feedParsePair (env : Env) (url : String) : FeedResult × FeedLog :=
  match logGet env.feedLog url with
  | some r =>
    match r.etag with
    | some e =>
      match r.modified with
      | some m => (env.parseFeed url (some e) (some m), env.feedLog)
      | none => (env.parseFeed url none none, logSet env.feedLog url ⟨[], none, none⟩)
    | none => (env.parseFeed url none none, logSet env.feedLog url ⟨[], none, none⟩)
  | none => (env.parseFeed url none none, logSet env.feedLog url ⟨[], none, none⟩)

/-- Feed entries whose link is not yet in the per-feed `downloaded` log. -/
def feedEntriesOf (env : Env) : List FeedEntry :=
  let url := feedUrlOf env
  let pr := feedParsePair env url
  let downloaded := match logGet pr.2 url with | some r => r.downloaded | none => []
  pr.1.entries.filter (fun e => e.link ∉ downloaded)

/-- The batch priority step shared by the three orchestrators. -/
def feedPrio (env : Env) : Option String × List Ev :=
  if env.prioEnabled then (some (getPriority env).1, (getPriority env).2)
  else (none, [])

/-- The selection step of `importFeed`. -/
def feedSelectedOf (env : Env) (chooser : List (String × FeedEntry) → List FeedEntry) :
    List FeedEntry :=
  selectChoices chooser ((feedEntriesOf env).map (fun e => (e.title, e)))

/-- `Importer.importFeed`. -/
def importFeed (env : Env) (chooser : List (String × FeedEntry) → List FeedEntry) :
    Except PyErr Unit × List Ev × FeedLog :=
  let url0 := env.textInput.1
  let accepted := env.textInput.2
  if url0 = "" ∨ accepted = false then (.ok (), [], env.feedLog)
  else
    let url := feedUrlOf env
    let pr := feedParsePair env url
    let feed := pr.1
    let log1 := pr.2
    let wevs := if feed.status ∉ [200, 301, 302] then [Ev.warning] else []
    let prioP := feedPrio env
    let entries := feedEntriesOf env
    if entries.isEmpty then (.ok (), wevs ++ prioP.2 ++ [Ev.info], log1)
    else
      let selected := feedSelectedOf env chooser
      if selected.isEmpty then (.ok (), wevs ++ prioP.2, log1)
      else
        let n := selected.length
        let lr := feedLoop env prioP.1 url selected 1 log1 none
        match lr.1 with
        | .error e => (.error e, wevs ++ prioP.2 ++ [Ev.progressStart n] ++ lr.2.1, lr.2.2)
        | .ok lastDeck =>
          let etagv := feed.etagAttr.getD ""
          let modv := feed.modifiedAttr.getD ""
          let log2 :=
            match logGet lr.2.2 url with
            | some r => logSet lr.2.2 url ⟨r.downloaded, some etagv, some modv⟩
            | none => lr.2.2
          (.ok (), wevs ++ prioP.2 ++ [Ev.progressStart n] ++ lr.2.1 ++
            [Ev.etagSet url etagv, Ev.modifiedSet url modv, Ev.progressFinish,
              Ev.tooltipShown ("Added " ++ toString n ++ " item(s) to deck: " ++
                pyStr lastDeck)],
            log2)

/-- The per-entry loop of `importPocket`: import, optionally archive
    (independent of the import's outcome), report progress. -/
def pocketLoop (env : Env) (priority : Option String) :
    List PocketArticle → Nat → Option String → Except PyErr (Option String) × List Ev
  | [], _, lastDeck => (.ok lastDeck, [])
  | a :: rest, i, _ =>
    let r := importWebpage env (some a.given_url) priority true (some a.resolved_title)
    match r.1 with
    | .error err => (.error err, r.2)
    | .ok deck =>
      let aevs := if env.pocketArchive then [Ev.archived a.given_url] else []
      let rec2 := pocketLoop env priority rest (i + 1) deck
      (rec2.1, r.2 ++ aevs ++ [Ev.progressUpdate i] ++ rec2.2)

/-- `Importer.importPocket`. -/
def importPocket (env : Env) (chooser : List (String × PocketArticle) → List PocketArticle) :
    Except PyErr Unit × List Ev :=
  let articles := env.pocketArticles
  if articles.isEmpty then (.ok (), [])
  else
    let selected := selectChoices chooser articles
    let prioP := feedPrio env
    if selected.isEmpty then (.ok (), prioP.2)
    else
      let n := selected.length
      let lr := pocketLoop env prioP.1 selected 1 none
      match lr.1 with
      | .error e => (.error e, prioP.2 ++ [Ev.progressStart n] ++ lr.2)
      | .ok lastDeck =>
        (.ok (), prioP.2 ++ [Ev.progressStart n] ++ lr.2 ++
          [Ev.progressFinish,
            Ev.tooltipShown ("Added " ++ toString n ++ " item(s) to deck: " ++
              pyStr lastDeck)])

/-- `text -- bookTitle by author`, with `"Unknown"` for missing fields. -/
def epubTitle (a : EpubArticle) : String :=
  let text := match truthyOpt a.text with | some t => t | none => "Unknown"
  let booktitle := match truthyOpt a.title with | some t => t | none => "Unknown"
  let author := match truthyOpt a.author with | some t => t | none => "Unknown"
  text ++ " -- " ++ booktitle ++ " by " ++ author

def epubBooktitle (a : EpubArticle) : String :=
  match truthyOpt a.title with | some t => t | none => "Unknown"

/-- The per-entry loop of `importEpub`: duplicate hrefs within the batch
    are skipped (progress is still reported for them). -/
def epubLoop (env : Env) (priority : Option String) :
    List EpubArticle → Nat → List String → Option String →
      Except PyErr (Option String × List String) × List Ev
  | [], _, imported, lastDeck => (.ok (lastDeck, imported), [])
  | a :: rest, i, imported, lastDeck =>
    if a.href ∈ imported then
      let rec2 := epubLoop env priority rest (i + 1) imported lastDeck
      (rec2.1, [Ev.progressUpdate i] ++ rec2.2)
    else
      let title := epubTitle a
      let booktitle := epubBooktitle a
      let r := importLocalFile env (some a.href) priority true (some title) (some booktitle)
      match r.1 with
      | .error err => (.error err, r.2)
      | .ok deck =>
        let rec2 := epubLoop env priority rest (i + 1) (imported ++ [a.href]) deck
        (rec2.1, r.2 ++ [Ev.progressUpdate i] ++ rec2.2)

/-- `Importer.importEpub`. -/
def importEpub (env : Env) (chooser : List (String × EpubArticle) → List EpubArticle)
    (pathArg : Option String) : Except PyErr Unit × List Ev :=
  let path0 :=
    match truthyOpt pathArg with
    | some p => some p
    | none => truthyOpt env.epubFilePick
  match path0 with
  | none => (.ok (), [])
  | some path =>
    let articles := env.epubToc path
    if articles.isEmpty then (.ok (), [Ev.info])
    else
      let selected := selectChoices chooser articles
      let prioP := feedPrio env
      if selected.isEmpty then (.ok (), prioP.2)
      else
        let n := selected.length
        let lr := epubLoop env prioP.1 selected 1 [] none
        match lr.1 with
        | .error e => (.error e, prioP.2 ++ [Ev.progressStart n] ++ lr.2)
        | .ok p =>
          (.ok (), prioP.2 ++ [Ev.progressStart n] ++ lr.2 ++
            [Ev.progressFinish,
              Ev.tooltipShown ("Added " ++ toString p.2.length ++ " item(s) to deck: " ++
                pyStr p.1)])

/-! ## Trace facts -/

def isProgressUpdate : Ev → Bool
  | .progressUpdate _ => true
  | _ => false

def isProgressStart : Ev → Bool
  | .progressStart _ => true
  | _ => false

def isEtagSet : Ev → Bool
  | .etagSet _ _ => true
  | _ => false

def isNoteAdded : Ev → Bool
  | .noteAdded .. => true
  | _ => false

def isTooltip : Ev → Bool
  | .tooltipShown _ => true
  | _ => false

def isPrompt : Ev → Bool
  | .prompt => true
  | _ => false

def isInfo : Ev → Bool
  | .info => true
  | _ => false

/-- The only kinds of events a single `importWebpage` call can emit. -/
def webEv : Ev → Bool
  | .fetchAttempt _ => true
  | .warning => true
  | .critical => true
  | .prompt => true
  | .noteAdded .. => true
  | .tooltipShown _ => true
  | _ => false

theorem fetchWebpage_evs (env : Env) (url : String) :
    (fetchWebpage env url).2 = [Ev.fetchAttempt url] := by
  unfold fetchWebpage
  cases henv : env.server url with
  | refuse => rfl
  | respond s doc =>
    cases hcl : cleanWebpage env.badTags env.addFile doc url false with
    | error e => simp [hcl]
    | ok p => simp [hcl]

theorem createNote_evs_web (env : Env) (title text source : String)
    (priority tags : Option String) :
    ∀ ev ∈ (createNote env title text source priority tags).2, webEv ev = true := by
  intro ev hev
  simp only [createNote] at hev
  split at hev
  · split at hev
    · simp at hev
      subst hev
      rfl
    · simp at hev
      subst hev
      rfl
  · simp at hev
    subst hev
    rfl

theorem importWebpage_evs_web (env : Env) (urlArg priority : Option String)
    (silent : Bool) (titleArg : Option String) :
    ∀ ev ∈ (importWebpage env urlArg priority silent titleArg).2, webEv ev = true := by
  intro ev hev
  simp only [importWebpage] at hev
  split at hev
  · simp at hev
  · split at hev
    · simp at hev
      subst hev
      rfl
    · split at hev
      case _ fevs heq =>
        have hf := congrArg Prod.snd heq
        rw [fetchWebpage_evs] at hf
        subst hf
        simp at hev
        rcases hev with hev | hev
        · subst hev; rfl
        · subst hev; rfl
      case _ code reason fevs heq =>
        have hf := congrArg Prod.snd heq
        rw [fetchWebpage_evs] at hf
        subst hf
        simp at hev
        rcases hev with hev | hev
        · subst hev; rfl
        · subst hev; rfl
      case _ e fevs heq =>
        have hf := congrArg Prod.snd heq
        rw [fetchWebpage_evs] at hf
        subst hf
        simp at hev
        subst hev
        rfl
      case _ body webpage fevs heq =>
        have hf := congrArg Prod.snd heq
        rw [fetchWebpage_evs] at hf
        subst hf
        split at hev
        · simp at hev
          subst hev
          rfl
        · rename_i priority2 pevs heqp
          have hpevs : pevs = [] ∨ pevs = [Ev.prompt] := by
            split at heqp
            · split at heqp
              · cases heqp
              · cases heqp
                right
                rfl
            · cases heqp
              left
              rfl
          split at hev
          · simp at hev
            rcases hev with hev | hev
            · subst hev; rfl
            · rcases hpevs with rfl | rfl
              · simp at hev
              · simp at hev
                subst hev
                rfl
          · rename_i title heqt
            simp at hev
            rcases hev with hev | hev | hev
            · subst hev; rfl
            · rcases hpevs with rfl | rfl
              · simp at hev
              · simp at hev
                subst hev
                rfl
            · rcases hev with hev | ⟨_, hev⟩
              · exact createNote_evs_web env _ _ _ _ _ ev hev
              · subst hev
                rfl

theorem countP_zero_of_webEv {p : Ev → Bool} (hp : ∀ ev, webEv ev = true → p ev = false)
    {evs : List Ev} (h : ∀ ev ∈ evs, webEv ev = true) : List.countP p evs = 0 := by
  rw [List.countP_eq_zero]
  intro a ha
  rw [hp a (h a ha)]
  simp

theorem webEv_not_progress : ∀ ev, webEv ev = true → isProgressUpdate ev = false := by
  intro ev h
  cases ev <;> first | rfl | exact Bool.noConfusion h

theorem webEv_not_etag : ∀ ev, webEv ev = true → isEtagSet ev = false := by
  intro ev h
  cases ev <;> first | rfl | exact Bool.noConfusion h

theorem feedPrio_evs (env : Env) :
    (feedPrio env).2 = if env.prioEnabled then [Ev.prompt] else [] := by
  unfold feedPrio
  split <;> rfl

theorem logGet_logSet_same (log : FeedLog) (url : String) (r : FeedRec) :
    logGet (logSet log url r) url = some r := by
  induction log with
  | nil => simp [logSet, logGet, List.find?]
  | cons p rest ih =>
    obtain ⟨u, r0⟩ := p
    by_cases hu : u = url
    · simp [logSet, hu, logGet, List.find?]
    · simp only [logSet]
      rw [if_neg (by simpa using hu)]
      simp only [logGet, List.find?] at ih ⊢
      rw [show ((u, r0).1 == url) = false by simpa using hu]
      exact ih

/-- After the `try/except KeyError` block the feed log always has a record
    for the feed URL. -/
theorem feedParsePair_logGet (env : Env) (url : String) :
    ∃ r, logGet (feedParsePair env url).2 url = some r := by
  unfold feedParsePair
  cases hg : logGet env.feedLog url with
  | none =>
    dsimp only
    exact ⟨_, logGet_logSet_same _ _ _⟩
  | some r =>
    dsimp only
    cases he : r.etag with
    | none =>
      dsimp only
      exact ⟨_, logGet_logSet_same _ _ _⟩
    | some e =>
      dsimp only
      cases hm : r.modified with
      | none =>
        dsimp only
        exact ⟨_, logGet_logSet_same _ _ _⟩
      | some m =>
        dsimp only
        exact ⟨r, hg⟩

/-- Iterated `log[url]['downloaded'].append`. -/
def logAppendAll (log : FeedLog) (url : String) : List String → FeedLog
  | [] => log
  | l :: rest => logAppendAll (logAppend log url l) url rest

theorem logGet_logAppend (log : FeedLog) (url l : String) {r : FeedRec}
    (h : logGet log url = some r) :
    logGet (logAppend log url l) url = some ⟨r.downloaded ++ [l], r.etag, r.modified⟩ := by
  unfold logAppend
  rw [h]
  exact logGet_logSet_same _ _ _

theorem logGet_logAppendAll (url : String) :
    ∀ (links : List String) (log : FeedLog) (r : FeedRec),
      logGet log url = some r →
      logGet (logAppendAll log url links) url =
        some ⟨r.downloaded ++ links, r.etag, r.modified⟩ := by
  intro links
  induction links with
  | nil => intro log r h; simpa using h
  | cons l rest ih =>
    intro log r h
    have h2 := logGet_logAppend log url l h
    have h3 := ih (logAppend log url l) _ h2
    simpa [List.append_assoc] using h3

/-- Specification of the feed batch loop: when every selected entry's
    `importWebpage` call returns normally (with or without a created
    note), the loop finishes, reports progress once per entry, appends
    every entry's link to the dedup log, and performs no revalidation
    update of its own. -/
theorem feedLoop_spec (env : Env) (prio : Option String) (url : String) :
    ∀ (sel : List FeedEntry) (i : Nat) (log : FeedLog) (last : Option String),
      (∀ e ∈ sel, ∃ d, (importWebpage env (some e.link) prio true none).1 = .ok d) →
      ∃ d evs,
        feedLoop env prio url sel i log last =
          (.ok d, evs, logAppendAll log url (sel.map (fun e => e.link))) ∧
        List.countP isProgressUpdate evs = sel.length ∧
        List.countP isEtagSet evs = 0 ∧
        (∀ e ∈ sel, Ev.linkLogged url e.link ∈ evs) := by
  intro sel
  induction sel with
  | nil =>
    intro i log last _
    exact ⟨last, [], rfl, rfl, rfl, by simp⟩
  | cons e rest ih =>
    intro i log last hok
    obtain ⟨d, hd⟩ := hok e (by simp)
    obtain ⟨d', evs', hleq, hcnt, hetag, hmem⟩ :=
      ih (i + 1) (logAppend log url e.link) d
        (fun e2 he2 => hok e2 (List.mem_cons_of_mem _ he2))
    refine ⟨d', (importWebpage env (some e.link) prio true none).2 ++
      ([Ev.linkLogged url e.link, Ev.progressUpdate i] ++ evs'), ?_, ?_, ?_, ?_⟩
    · simp only [feedLoop]
      rw [hd]
      dsimp only
      rw [hleq]
      dsimp only [logAppendAll, List.map]
      rw [List.append_assoc]
    · rw [List.countP_append, List.countP_append]
      rw [countP_zero_of_webEv webEv_not_progress
        (importWebpage_evs_web env _ prio true none)]
      rw [hcnt]
      simp [List.countP_cons, List.countP_nil, isProgressUpdate]
      omega
    · rw [List.countP_append, List.countP_append]
      rw [countP_zero_of_webEv webEv_not_etag
        (importWebpage_evs_web env _ prio true none)]
      rw [hetag]
      rfl
    · intro e2 he2
      rcases List.mem_cons.mp he2 with rfl | hmem2
      · simp
      · simp only [List.mem_append]
        exact Or.inr (Or.inr (hmem e2 hmem2))

/-- Full shape of a non-empty feed batch run in which every selected
    entry's import returns normally. -/
theorem importFeed_shape (env : Env)
    (chooser : List (String × FeedEntry) → List FeedEntry)
    (hurl : env.textInput.1 ≠ "") (hacc : env.textInput.2 = true)
    (hentries : (feedEntriesOf env).isEmpty = false)
    (hsel : (feedSelectedOf env chooser).isEmpty = false)
    (hok : ∀ e ∈ feedSelectedOf env chooser,
      ∃ d, (importWebpage env (some e.link) (feedPrio env).1 true none).1 = .ok d) :
    ∃ d evs r1,
      logGet (feedParsePair env (feedUrlOf env)).2 (feedUrlOf env) = some r1 ∧
      importFeed env chooser =
        (.ok (),
          (if (feedParsePair env (feedUrlOf env)).1.status ∉ [200, 301, 302]
            then [Ev.warning] else []) ++
            (feedPrio env).2 ++ [Ev.progressStart (feedSelectedOf env chooser).length] ++
            evs ++
            [Ev.etagSet (feedUrlOf env)
                ((feedParsePair env (feedUrlOf env)).1.etagAttr.getD ""),
              Ev.modifiedSet (feedUrlOf env)
                ((feedParsePair env (feedUrlOf env)).1.modifiedAttr.getD ""),
              Ev.progressFinish,
              Ev.tooltipShown ("Added " ++ toString (feedSelectedOf env chooser).length ++
                " item(s) to deck: " ++ pyStr d)],
          logSet (logAppendAll (feedParsePair env (feedUrlOf env)).2 (feedUrlOf env)
              ((feedSelectedOf env chooser).map (fun e => e.link))) (feedUrlOf env)
            ⟨r1.downloaded ++ (feedSelectedOf env chooser).map (fun e => e.link),
              some ((feedParsePair env (feedUrlOf env)).1.etagAttr.getD ""),
              some ((feedParsePair env (feedUrlOf env)).1.modifiedAttr.getD "")⟩) ∧
      List.countP isProgressUpdate evs = (feedSelectedOf env chooser).length ∧
      List.countP isEtagSet evs = 0 ∧
      (∀ e ∈ feedSelectedOf env chooser, Ev.linkLogged (feedUrlOf env) e.link ∈ evs) := by
  obtain ⟨r1, hr1⟩ := feedParsePair_logGet env (feedUrlOf env)
  obtain ⟨d, evs, hloop, hcnt, hetag0, hmem⟩ :=
    feedLoop_spec env (feedPrio env).1 (feedUrlOf env) (feedSelectedOf env chooser) 1
      (feedParsePair env (feedUrlOf env)).2 none hok
  refine ⟨d, evs, r1, hr1, ?_, hcnt, hetag0, hmem⟩
  simp only [importFeed]
  rw [if_neg (by simp [hurl, hacc])]
  rw [if_neg (by simp [hentries])]
  rw [if_neg (by simp [hsel])]
  rw [hloop]
  dsimp only
  rw [logGet_logAppendAll (feedUrlOf env) _ _ r1 hr1]

def isWarning : Ev → Bool
  | .warning => true
  | _ => false

/-- A typical remote page: a title and a body. -/
def pageDoc (t b : String) : NodeList :=
  nodesOf [el "html" []
    [el "head" [] [el "title" [] [.text t]], el "body" [] [.text b]]]

/-- A concrete collaborator environment for witnesses and counterexamples. -/
def baseEnv : Env where
  badTags := []
  importDeck := ""
  deckByName := fun _ => none
  curDeck := 1
  deckName := fun _ => "Default"
  prioEnabled := false
  priorities := []
  chooseIdx := 0
  sourceFormat := fun d u => "[" ++ d ++ "|" ++ u ++ "]"
  today := "2026-10-12"
  textInput := ("http://feed.example/rss", true)
  server := fun _ => .respond 200 (pageDoc "T" "B")
  files := fun _ => nodesOf []
  isFile := fun _ => true
  addFile := fun p => p
  pocketArticles := []
  pocketArchive := false
  localFilePick := none
  epubFilePick := none
  epubToc := fun _ => []
  parseFeed := fun _ _ _ => ⟨200, [], none, none⟩
  feedLog := []

/-- Three feed entries; fetching the second one hits a connection error. -/
def c1Env : Env :=
  { baseEnv with
    server := fun u => if u = "http://s/2" then .refuse else .respond 200 (pageDoc "T" "B")
    parseFeed := fun _ _ _ =>
      ⟨200, [⟨"e1", "http://s/1"⟩, ⟨"e2", "http://s/2"⟩, ⟨"e3", "http://s/3"⟩],
        some "E", some "M"⟩ }

/-- Select every offered candidate. -/
def allChooser {α : Type} : List (String × α) → List α := fun cs => cs.map Prod.snd

/-- C1 (amended): in a feed batch where every selected entry's import
    returns normally (a caught network failure returns normally with no
    note), the loop runs to completion, progress is reported exactly once
    per selected entry, and the final summary reports the number of
    selected entries — not the number of successful imports. -/
theorem importFeed_progress_summary_c1 (env : Env)
    (chooser : List (String × FeedEntry) → List FeedEntry)
    (hurl : env.textInput.1 ≠ "") (hacc : env.textInput.2 = true)
    (hentries : (feedEntriesOf env).isEmpty = false)
    (hsel : (feedSelectedOf env chooser).isEmpty = false)
    (hok : ∀ e ∈ feedSelectedOf env chooser,
      ∃ d, (importWebpage env (some e.link) (feedPrio env).1 true none).1 = .ok d) :
    (importFeed env chooser).1 = .ok () ∧
    List.countP isProgressUpdate (importFeed env chooser).2.1 =
      (feedSelectedOf env chooser).length ∧
    ∃ d, Ev.tooltipShown ("Added " ++ toString (feedSelectedOf env chooser).length ++
      " item(s) to deck: " ++ pyStr d) ∈ (importFeed env chooser).2.1 := by
  obtain ⟨d, evs, r1, hr1, heq, hcnt, hetag0, hmem⟩ :=
    importFeed_shape env chooser hurl hacc hentries hsel hok
  rw [heq]
  refine ⟨rfl, ?_, ⟨d, ?_⟩⟩
  · dsimp only
    rw [List.countP_append, List.countP_append, List.countP_append, List.countP_append]
    have h1 : List.countP isProgressUpdate
        (if (feedParsePair env (feedUrlOf env)).1.status ∉ [200, 301, 302]
          then [Ev.warning] else []) = 0 := by split <;> rfl
    have h2 : List.countP isProgressUpdate (feedPrio env).2 = 0 := by
      rw [feedPrio_evs]; split <;> rfl
    rw [h1, h2, hcnt]
    simp [List.countP_cons, isProgressUpdate]
  · dsimp only
    simp

/-- Witness for C1 at the concrete three-entry feed with a failing second
    entry. -/
theorem importFeed_progress_summary_c1_witness :
    (importFeed c1Env allChooser).1 = .ok () ∧
    List.countP isProgressUpdate (importFeed c1Env allChooser).2.1 =
      (feedSelectedOf c1Env allChooser).length ∧
    ∃ d, Ev.tooltipShown ("Added " ++ toString (feedSelectedOf c1Env allChooser).length ++
      " item(s) to deck: " ++ pyStr d) ∈ (importFeed c1Env allChooser).2.1 :=
  importFeed_progress_summary_c1 c1Env allChooser (by decide) (by decide) (by decide)
    (by decide)
    (by
      intro e he
      have hs : feedSelectedOf c1Env allChooser =
          [⟨"e1", "http://s/1"⟩, ⟨"e2", "http://s/2"⟩, ⟨"e3", "http://s/3"⟩] := by decide
      rw [hs] at he
      simp only [List.mem_cons, List.not_mem_nil, or_false] at he
      rcases he with rfl | rfl | rfl
      · exact ⟨some "Default", by decide⟩
      · exact ⟨none, by decide⟩
      · exact ⟨some "Default", by decide⟩)

/-- Counterexample for C1 as stated: two of the three selected entries
    succeed (the second hits a network error), yet the final
    summary reports three items, the number of selected entries. -/
theorem importFeed_summary_c1_cex :
    List.countP isNoteAdded (importFeed c1Env allChooser).2.1 = 2 ∧
    List.countP isProgressUpdate (importFeed c1Env allChooser).2.1 = 3 ∧
    Ev.tooltipShown "Added 3 item(s) to deck: Default" ∈ (importFeed c1Env allChooser).2.1 ∧
    ¬ Ev.tooltipShown "Added 2 item(s) to deck: Default" ∈ (importFeed c1Env allChooser).2.1 := by
  decide

/-- C2 (amended): in a feed batch every selected entry's link is appended
    to the per-feed `downloaded` log whether or not that entry's import
    succeeded, and the stored `etag`/`lastModified` tokens are written
    exactly once, after the whole batch loop completes. -/
theorem importFeed_log_c2 (env : Env)
    (chooser : List (String × FeedEntry) → List FeedEntry)
    (hurl : env.textInput.1 ≠ "") (hacc : env.textInput.2 = true)
    (hentries : (feedEntriesOf env).isEmpty = false)
    (hsel : (feedSelectedOf env chooser).isEmpty = false)
    (hok : ∀ e ∈ feedSelectedOf env chooser,
      ∃ d, (importWebpage env (some e.link) (feedPrio env).1 true none).1 = .ok d) :
    ∃ r1, logGet (feedParsePair env (feedUrlOf env)).2 (feedUrlOf env) = some r1 ∧
      logGet (importFeed env chooser).2.2 (feedUrlOf env) =
        some ⟨r1.downloaded ++ (feedSelectedOf env chooser).map (fun e => e.link),
          some ((feedParsePair env (feedUrlOf env)).1.etagAttr.getD ""),
          some ((feedParsePair env (feedUrlOf env)).1.modifiedAttr.getD "")⟩ ∧
      ∃ t1 d, (importFeed env chooser).2.1 =
          t1 ++ [Ev.etagSet (feedUrlOf env)
              ((feedParsePair env (feedUrlOf env)).1.etagAttr.getD ""),
            Ev.modifiedSet (feedUrlOf env)
              ((feedParsePair env (feedUrlOf env)).1.modifiedAttr.getD ""),
            Ev.progressFinish,
            Ev.tooltipShown ("Added " ++ toString (feedSelectedOf env chooser).length ++
              " item(s) to deck: " ++ pyStr d)] ∧
        List.countP isEtagSet t1 = 0 ∧
        ∀ e ∈ feedSelectedOf env chooser, Ev.linkLogged (feedUrlOf env) e.link ∈ t1 := by
  obtain ⟨d, evs, r1, hr1, heq, hcnt, hetag0, hmem⟩ :=
    importFeed_shape env chooser hurl hacc hentries hsel hok
  refine ⟨r1, hr1, ?_, ?_⟩
  · rw [heq]
    dsimp only
    exact logGet_logSet_same _ _ _
  · refine ⟨(if (feedParsePair env (feedUrlOf env)).1.status ∉ [200, 301, 302]
      then [Ev.warning] else []) ++ (feedPrio env).2 ++
      [Ev.progressStart (feedSelectedOf env chooser).length] ++ evs, d, ?_, ?_, ?_⟩
    · rw [heq]
    · rw [List.countP_append, List.countP_append, List.countP_append]
      have h1 : List.countP isEtagSet
          (if (feedParsePair env (feedUrlOf env)).1.status ∉ [200, 301, 302]
            then [Ev.warning] else []) = 0 := by split <;> rfl
      have h2 : List.countP isEtagSet (feedPrio env).2 = 0 := by
        rw [feedPrio_evs]; split <;> rfl
      rw [h1, h2, hetag0]
      rfl
    · intro e he
      simp only [List.mem_append]
      exact Or.inr (hmem e he)

/-- Witness for C2 at the concrete three-entry feed. -/
theorem importFeed_log_c2_witness :
    ∃ r1, logGet (feedParsePair c1Env (feedUrlOf c1Env)).2 (feedUrlOf c1Env) = some r1 ∧
      logGet (importFeed c1Env allChooser).2.2 (feedUrlOf c1Env) =
        some ⟨r1.downloaded ++ (feedSelectedOf c1Env allChooser).map (fun e => e.link),
          some ((feedParsePair c1Env (feedUrlOf c1Env)).1.etagAttr.getD ""),
          some ((feedParsePair c1Env (feedUrlOf c1Env)).1.modifiedAttr.getD "")⟩ ∧
      ∃ t1 d, (importFeed c1Env allChooser).2.1 =
          t1 ++ [Ev.etagSet (feedUrlOf c1Env)
              ((feedParsePair c1Env (feedUrlOf c1Env)).1.etagAttr.getD ""),
            Ev.modifiedSet (feedUrlOf c1Env)
              ((feedParsePair c1Env (feedUrlOf c1Env)).1.modifiedAttr.getD ""),
            Ev.progressFinish,
            Ev.tooltipShown ("Added " ++ toString (feedSelectedOf c1Env allChooser).length ++
              " item(s) to deck: " ++ pyStr d)] ∧
        List.countP isEtagSet t1 = 0 ∧
        ∀ e ∈ feedSelectedOf c1Env allChooser, Ev.linkLogged (feedUrlOf c1Env) e.link ∈ t1 :=
  importFeed_log_c2 c1Env allChooser (by decide) (by decide) (by decide) (by decide)
    (by
      intro e he
      have hs : feedSelectedOf c1Env allChooser =
          [⟨"e1", "http://s/1"⟩, ⟨"e2", "http://s/2"⟩, ⟨"e3", "http://s/3"⟩] := by decide
      rw [hs] at he
      simp only [List.mem_cons, List.not_mem_nil, or_false] at he
      rcases he with rfl | rfl | rfl
      · exact ⟨some "Default", by decide⟩
      · exact ⟨none, by decide⟩
      · exact ⟨some "Default", by decide⟩)

/-- Counterexample for C2 as stated: the second entry's fetch fails with
    a network error and creates no note, yet its link is appended to the
    `downloaded` log all the same. -/
theorem importFeed_log_c2_cex :
    logGet (importFeed c1Env allChooser).2.2 "http://feed.example/rss" =
      some ⟨["http://s/1", "http://s/2", "http://s/3"], some "E", some "M"⟩ ∧
    (importWebpage c1Env (some "http://s/2") none true none).1 = .ok none ∧
    List.countP isNoteAdded (importWebpage c1Env (some "http://s/2") none true none).2 = 0 := by
  decide

/-- C7 (amended): with an empty selection every batch orchestrator stops
    without importing anything — no entry imported, no progress reported,
    no notice shown — but the priority prompt is still issued whenever
    priority assignment is enabled (before selection for feeds, after
    selection but unconditionally for read-later and e-book). -/
theorem emptySelection_c7 (env : Env) (path : String)
    (chooserF : List (String × FeedEntry) → List FeedEntry)
    (chooserP : List (String × PocketArticle) → List PocketArticle)
    (chooserE : List (String × EpubArticle) → List EpubArticle)
    (hurl : env.textInput.1 ≠ "") (hacc : env.textInput.2 = true)
    (hstatus : (feedParsePair env (feedUrlOf env)).1.status ∈ [200, 301, 302])
    (hentries : (feedEntriesOf env).isEmpty = false)
    (hselF : feedSelectedOf env chooserF = [])
    (harts : env.pocketArticles.isEmpty = false)
    (hselP : chooserP env.pocketArticles = [])
    (hpath : path ≠ "")
    (htoc : (env.epubToc path).isEmpty = false)
    (hselE : chooserE (env.epubToc path) = []) :
    importFeed env chooserF =
      (.ok (), (if env.prioEnabled then [Ev.prompt] else []),
        (feedParsePair env (feedUrlOf env)).2) ∧
    importPocket env chooserP = (.ok (), if env.prioEnabled then [Ev.prompt] else []) ∧
    importEpub env chooserE (some path) =
      (.ok (), if env.prioEnabled then [Ev.prompt] else []) := by
  refine ⟨?_, ?_, ?_⟩
  · simp only [importFeed]
    rw [if_neg (by simp [hurl, hacc])]
    rw [if_neg (by simp [hentries])]
    rw [hselF]
    rw [if_pos (by rfl)]
    rw [if_neg (by simp [hstatus])]
    rw [feedPrio_evs]
    simp
  · have hsel2 : selectChoices chooserP env.pocketArticles = [] := by
      simp [selectChoices, harts, hselP]
    simp only [importPocket]
    rw [if_neg (by simp [harts])]
    rw [hsel2]
    rw [if_pos (by rfl)]
    rw [feedPrio_evs]
  · have hsel2 : selectChoices chooserE (env.epubToc path) = [] := by
      simp [selectChoices, htoc, hselE]
    simp only [importEpub]
    have hp : truthyOpt (some path) = some path := by simp [truthyOpt, hpath]
    rw [hp]
    dsimp only
    rw [if_neg (by simp [htoc])]
    rw [hsel2]
    rw [if_pos (by rfl)]
    rw [feedPrio_evs]

/-- Empty-selection environment with priority assignment enabled. -/
def c7Env : Env :=
  { baseEnv with
    prioEnabled := true
    priorities := ["High", "Low"]
    pocketArticles := [("t", ⟨"http://p/1", "T1"⟩)]
    epubToc := fun _ => [("x", ⟨some "c", some "B", some "A", "/f.html"⟩)]
    parseFeed := fun _ _ _ => ⟨200, [⟨"t", "http://s/1"⟩], none, none⟩ }

/-- Empty selection. -/
def noneChooser {α : Type} : List (String × α) → List α := fun _ => []

/-- Witness for C7: the amended theorem at a concrete environment with
    priority assignment enabled. -/
theorem emptySelection_c7_witness :
    importFeed c7Env noneChooser =
      (.ok (), (if c7Env.prioEnabled then [Ev.prompt] else []),
        (feedParsePair c7Env (feedUrlOf c7Env)).2) ∧
    importPocket c7Env noneChooser = (.ok (), if c7Env.prioEnabled then [Ev.prompt] else []) ∧
    importEpub c7Env noneChooser (some "b.epub") =
      (.ok (), if c7Env.prioEnabled then [Ev.prompt] else []) :=
  emptySelection_c7 c7Env "b.epub" noneChooser noneChooser noneChooser (by decide) (by decide)
    (by decide) (by decide) (by decide) (by decide) (by decide) (by decide) (by decide)
    (by decide)

/-- Counterexample for C7 as stated: with priority assignment enabled an
    empty selection still triggers exactly one priority prompt, in each of
    the three orchestrators. -/
theorem emptySelection_c7_cex :
    List.countP isPrompt (importPocket c7Env noneChooser).2 = 1 ∧
    List.countP isPrompt (importFeed c7Env noneChooser).2.1 = 1 ∧
    List.countP isPrompt (importEpub c7Env noneChooser (some "b.epub")).2 = 1 := by
  decide

/-- A server where one URL answers with HTTP 404 and every other
    connection attempt fails. -/
def c9Env : Env :=
  { baseEnv with
    server := fun u =>
      if u = "http://err.example/x" then .respond 404 (pageDoc "Oops" "ERRPAGE")
      else .refuse }

/-- C9: on a connection failure `importWebpage` shows a warning and
    creates no note, as the spec says; but on an HTTP error status the
    fetch does not fail at all — `requests.get` returns the error
    response without raising, the `except HTTPError` handler is dead
    code, and the error page is imported as a note with no warning. -/
theorem importWebpage_fetch_errors_c9 :
    ((importWebpage c9Env (some "http://down.example/") none false none).1 = .ok none ∧
      List.countP isNoteAdded
        (importWebpage c9Env (some "http://down.example/") none false none).2 = 0 ∧
      Ev.warning ∈ (importWebpage c9Env (some "http://down.example/") none false none).2) ∧
    ((importWebpage c9Env (some "http://err.example/x") none false none).1 =
        .ok (some "Default") ∧
      List.countP isNoteAdded
        (importWebpage c9Env (some "http://err.example/x") none false none).2 = 1 ∧
      List.countP isWarning
        (importWebpage c9Env (some "http://err.example/x") none false none).2 = 0) := by
  decide

/-- C10: a non-empty URL with a scheme other than http/https is rejected
    with a critical notice, no fetch and no note; a URL with no scheme is
    fetched as `http://` ++ url. -/
theorem importWebpage_scheme_c10 (env : Env) (url : String) (priority : Option String)
    (silent : Bool) (titleArg : Option String) (hurl : url ≠ "") :
    (urlsplitScheme url ≠ "" → urlsplitScheme url ∉ ["http", "https"] →
      importWebpage env (some url) priority silent titleArg = (.ok none, [.critical])) ∧
    (urlsplitScheme url = "" →
      (importWebpage env (some url) priority silent titleArg).2.head? =
        some (.fetchAttempt ("http://" ++ url))) := by
  have hps : urlPromptStep env (some url) = (url, true) := by
    simp [urlPromptStep, hurl]
  constructor
  · intro hne hmem
    simp only [importWebpage, hps]
    rw [if_neg (by simp [hurl])]
    rw [if_pos ⟨hne, hmem⟩]
  · intro hsch
    simp only [importWebpage, hps]
    rw [if_neg (by simp [hurl])]
    rw [if_neg (by simp [hsch])]
    rw [if_pos hsch]
    have hf := fetchWebpage_evs env ("http://" ++ url)
    cases hfe : fetchWebpage env ("http://" ++ url) with
    | mk r evs =>
      rw [hfe] at hf
      dsimp only at hf
      subst hf
      cases r with
      | error e => cases e <;> rfl
      | ok p =>
        obtain ⟨body, webpage⟩ := p
        dsimp only
        split
        · rfl
        · split
          · rfl
          · rfl

/-- Witness for C10: a concrete ftp URL is rejected with a critical
    notice, and a concrete scheme-less URL is fetched with `http://`
    prefixed. -/
theorem importWebpage_scheme_c10_witness :
    importWebpage baseEnv (some "ftp://x") none false none = (.ok none, [.critical]) ∧
    (importWebpage baseEnv (some "example.com/x") none false none).2.head? =
      some (.fetchAttempt "http://example.com/x") :=
  ⟨(importWebpage_scheme_c10 baseEnv "ftp://x" none false none (by decide)).1
      (by decide) (by decide),
   (importWebpage_scheme_c10 baseEnv "example.com/x" none false none (by decide)).2
      (by decide)⟩

/-- A local file whose parsed document has no `body` element. -/
def c4Env : Env :=
  { baseEnv with files := fun _ => nodesOf [el "p" [] [.text "hi"]] }

/-- C4: `_cleanWebpage` itself falls back to the document's plain text
    when no `body` element exists, and with a `body` element it returns
    the newline-joined serialization of the body's children; but
    `importLocalFile` then recomputes the body from
    `webpage.find('body').children` without a guard, so the local-file
    path raises `AttributeError` on exactly that body-less
    input instead of completing. -/
theorem importLocalFile_no_body_c4 :
    cleanBody [] id (nodesOf [el "p" [] [.text "hi"]]) (fileUrl "/a.html") true =
      .ok "hi" ∧
    cleanBody [] id (nodesOf [el "body" [] [el "p" [] [.text "x"], .text "y"]])
      "http://h/" false = .ok ("<p>x</p>" ++ "\n" ++ "y") ∧
    (importLocalFile c4Env (some "/a.html") none true (some "F") (some "T")).1 =
      .error .attributeError := by
  decide
